import Mathlib

/-!
Verification of the openclaw configuration-editor core.

This file shallowly embeds the relevant parts of the repository:

* the path-addressed configuration mutation engine
  (`setPathValue` / `removePathValue`, src/ui/src/ui/controllers/config.ts,
  lines 432-500),
* the config-state operations (`applyConfigSnapshot`, `saveConfig`,
  `updateConfigFormValue`, same file, lines 90-423), and
* the JSON-schema normalizer (`analyzeConfigSchema` / `normalizeSchemaNode` /
  `normalizeUnion` / `normalizeEnumValues`, src/unnamed/part_002,
  lines 420-587).

JSON-shaped runtime values are modelled by the inductive `JValue`.
JavaScript specifics that matter to the embedded functions are modelled
explicitly where they are observable through JSON serialization (the
persistence format used by `saveConfig` and the structural data model of the
spec); they are noted at the definitions concerned.
-/

/-- JSON-shaped runtime value. `nul` models both JavaScript `null` and
`undefined`: the embedded code only ever distinguishes them through `== null`
style checks, which treat the two alike. Numbers are modelled as integers;
no embedded code path inspected by the claims depends on fractional values. -/
inductive JValue where
  | nul
  | str (s : String)
  | num (n : Int)
  | bool (b : Bool)
  | arr (elems : List JValue)
  | obj (fields : List (String × JValue))

/-- Path segment: a string key or an array index, as in
`Array<string | number>`. Indices are natural numbers, matching the indices
produced by the form renderer. -/
abbrev Seg := String ⊕ Nat

/-- Truth of the JavaScript test `v == null` (null or undefined). -/
def isNul : JValue → Bool
  | .nul => true
  | _ => false

/-- Lookup of `fields[k]` on an object; a missing key reads as undefined. -/
def objGet (fields : List (String × JValue)) (k : String) : JValue :=
  match fields.find? (fun p => p.1 == k) with
  | some p => p.2
  | none => .nul

/-- Assignment `record[k] = v` on a JavaScript object: an existing key keeps
its position, a new key is appended (JS property insertion order). -/
def objSet (fields : List (String × JValue)) (k : String) (v : JValue) :
    List (String × JValue) :=
  match fields with
  | [] => [(k, v)]
  | (k', v') :: rest =>
    if k' == k then (k', v) :: rest else (k', v') :: objSet rest k v

/-- Read `elems[i]` on an array; out-of-range reads as undefined. -/
def arrGet (elems : List JValue) (i : Nat) : JValue := elems.getD i .nul

/-- Assignment `elems[i] = v` on a JavaScript array: writing past the end
extends the array, padding the gap with holes (which read back as
undefined, i.e. `nul`). -/
def arrSet (elems : List JValue) (i : Nat) (v : JValue) : List JValue :=
  if i < elems.length then elems.set i v
  else elems ++ List.replicate (i - elems.length) .nul ++ [v]

/-- Container created on demand by `setPathValue` while walking: the kind is
chosen by the kind of the next path segment (config.ts lines 445-446
and 453-454). -/
def mkContainer (next : Seg) : JValue :=
  match next with
  | .inl _ => .obj []
  | .inr _ => .arr []

/-- Recursive core of `setPathValue` (config.ts lines 432-469), returning the
new value of the current node. JavaScript notes, observable only through the
JSON tree (the spec's data model and the persisted format):

* writing a string key into an array (`typeof current === "object"` admits
  arrays) attaches a non-index property to the array object; such properties
  are invisible to JSON serialization, so on the JSON tree the write is a
  no-op and is modelled as one;
* a numeric final segment into a non-array, and a string final segment into
  a primitive, are explicit no-ops in the source. -/
def setGo (value : JValue) : JValue → List Seg → JValue
  | cur, [] => cur
  | cur, [last] =>
    match last, cur with
    | .inr i, .arr elems => .arr (arrSet elems i value)
    | .inr _, _ => cur
    | .inl k, .obj fields => .obj (objSet fields k value)
    | .inl _, _ => cur
  | cur, key :: next :: rest =>
    match key, cur with
    | .inr i, .arr elems =>
      let slot := arrGet elems i
      let base := if isNul slot then mkContainer next else slot
      .arr (arrSet elems i (setGo value base (next :: rest)))
    | .inr _, _ => cur
    | .inl k, .obj fields =>
      let slot := objGet fields k
      let base := if isNul slot then mkContainer next else slot
      .obj (objSet fields k (setGo value base (next :: rest)))
    | .inl _, _ => cur

/-- Model of `setPathValue(obj, path, value)` (config.ts lines 432-469).
The empty path is an explicit no-op (line 437). -/
def setPathValue (tree : JValue) (path : List Seg) (value : JValue) : JValue :=
  match path with
  | [] => tree
  | _ => setGo value tree path

/-- Removal of index `i` from a list: `splice(i, 1)`; out-of-range is a
no-op. -/
def spliceOne (elems : List JValue) (i : Nat) : List JValue :=
  elems.eraseIdx i

/-- Deletion `delete record[k]` on an object. -/
def objDelete (fields : List (String × JValue)) (k : String) :
    List (String × JValue) :=
  fields.eraseP (fun p => p.1 == k)

/-- Recursive core of `removePathValue` (config.ts lines 471-500). The walk
never creates containers; a missing or null intermediate aborts as a no-op
(line 488). Deleting a string key from an array or a primitive is a no-op on
the JSON tree, as for `setGo`. -/
def removeGo : JValue → List Seg → JValue
  | cur, [] => cur
  | cur, [last] =>
    match last, cur with
    | .inr i, .arr elems => .arr (spliceOne elems i)
    | .inr _, _ => cur
    | .inl k, .obj fields => .obj (objDelete fields k)
    | .inl _, _ => cur
  | cur, key :: next :: rest =>
    match key, cur with
    | .inr i, .arr elems =>
      let slot := arrGet elems i
      if isNul slot then cur
      else .arr (arrSet elems i (removeGo slot (next :: rest)))
    | .inr _, _ => cur
    | .inl k, .obj fields =>
      let slot := objGet fields k
      if isNul slot then cur
      else .obj (objSet fields k (removeGo slot (next :: rest)))
    | .inl _, _ => cur

/-- Model of `removePathValue(obj, path)` (config.ts lines 471-500); the
empty path is an explicit no-op (line 475). -/
def removePathValue (tree : JValue) (path : List Seg) : JValue :=
  match path with
  | [] => tree
  | _ => removeGo tree path

/-- Claim C8 test data: the path `["a", "b", 0]`. -/
def pathAB0 : List Seg := [Sum.inl "a", Sum.inl "b", Sum.inr 0]

/-- C8: `set(tree, ["a","b",0], "x")` on the empty mapping produces
`{a: {b: ["x"]}}`, creating a mapping then a sequence on demand, and
`remove` of the same path on the result produces `{a: {b: []}}`. -/
theorem setPathValue_remove_roundtrip_example :
    setPathValue (.obj []) pathAB0 (.str "x")
      = .obj [("a", .obj [("b", .arr [.str "x"])])]
    ∧ removePathValue (.obj [("a", .obj [("b", .arr [.str "x"])])]) pathAB0
      = .obj [("a", .obj [("b", .arr [])])] := by
  constructor <;> rfl

/-- Read-only walk mirroring the intermediate loop of `setPathValue` and
`removePathValue` without creating containers: each segment is followed
through a container of the matching kind, returning `none` where the loop
would abort or would find a null/undefined slot. It identifies the container
that the final segment of a path reaches when no on-demand creation occurs. -/
def walkNoCreate : JValue → List Seg → Option JValue
  | cur, [] => some cur
  | cur, (Sum.inr i) :: rest =>
    match cur with
    | .arr elems =>
      if isNul (arrGet elems i) then none else walkNoCreate (arrGet elems i) rest
    | _ => none
  | cur, (Sum.inl k) :: rest =>
    match cur with
    | .obj fields =>
      if isNul (objGet fields k) then none else walkNoCreate (objGet fields k) rest
    | _ => none

/-- Non-null scalar (primitive) values: string, number, or boolean. -/
def isScalar : JValue → Bool
  | .str _ => true
  | .num _ => true
  | .bool _ => true
  | _ => false

theorem setPathValue_eq_setGo (tree v : JValue) (path : List Seg)
    (h : path ≠ []) : setPathValue tree path v = setGo v tree path := by
  cases path with
  | nil => exact absurd rfl h
  | cons a b => rfl

/-- Mapping (JavaScript plain object) test. -/
def isMapping : JValue → Bool
  | .obj _ => true
  | _ => false

/-- Sequence (JavaScript array) test. -/
def isSequence : JValue → Bool
  | .arr _ => true
  | _ => false

/-- Kind mismatch between a reached container and the final path segment, as
in claim C2: an integer segment into a non-sequence, or a string segment into
a non-mapping. -/
def segMismatch (c : JValue) (last : Seg) : Bool :=
  match last with
  | .inr _ => !isSequence c
  | .inl _ => !isMapping c

theorem objSet_get_self (fields : List (String × JValue)) (k : String)
    (h : isNul (objGet fields k) = false) :
    objSet fields k (objGet fields k) = fields := by
  induction fields with
  | nil => simp [objGet, isNul] at h
  | cons p rest ih =>
    obtain ⟨k', v'⟩ := p
    by_cases hk : k' == k
    · simp [objGet, List.find?, hk, objSet]
    · simp only [objGet, List.find?, hk] at h ⊢
      simp only [objSet, hk, if_neg]
      simp only [Bool.false_eq_true, if_false]
      have := ih (by simpa [objGet] using h)
      simp only [objGet] at this
      rw [this]

theorem arrSet_get_self (elems : List JValue) (i : Nat)
    (h : isNul (arrGet elems i) = false) :
    arrSet elems i (arrGet elems i) = elems := by
  induction elems generalizing i with
  | nil =>
    have hnul : arrGet [] i = JValue.nul := by cases i <;> simp [arrGet]
    rw [hnul] at h
    simp [isNul] at h
  | cons a as ih =>
    cases i with
    | zero => simp [arrGet, arrSet]
    | succ j =>
      have hget : arrGet (a :: as) (j + 1) = arrGet as j := by
        simp [arrGet, List.getD_cons_succ]
      rw [hget] at h ⊢
      have hlt : j < as.length := by
        by_contra hge
        have hnone : as[j]? = none := List.getElem?_eq_none (by omega)
        have hnul : arrGet as j = JValue.nul := by
          simp [arrGet, List.getD_eq_getElem?_getD, hnone]
        rw [hnul] at h
        simp [isNul] at h
      have hrec := ih j h
      rw [arrSet, if_pos hlt] at hrec
      have hlt' : j + 1 < (a :: as).length := by simp; omega
      rw [arrSet, if_pos hlt']
      simp [List.set, hrec]

/-- If the creation-free walk of a path prefix reaches a value at which the
remaining write is a no-op, the whole write is a no-op on the tree. -/
theorem setGo_walk_id (v : JValue) :
    ∀ (p : List Seg) (tree c : JValue) (rest : List Seg),
      walkNoCreate tree p = some c → rest ≠ [] → setGo v c rest = c →
      setGo v tree (p ++ rest) = tree := by
  intro p
  induction p with
  | nil =>
    intro tree c rest hw _ hid
    simp only [walkNoCreate, Option.some.injEq] at hw
    subst hw
    simpa using hid
  | cons seg p' ih =>
    intro tree c rest hw hr hid
    obtain ⟨r1, rs⟩ : ∃ r1 rs, rest = r1 :: rs := by
      cases rest with
      | nil => exact absurd rfl hr
      | cons a b => exact ⟨a, b, rfl⟩
    obtain ⟨n1, ns, hpr⟩ : ∃ n1 ns, p' ++ rest = n1 :: ns := by
      cases hp : p' ++ rest with
      | nil =>
        rcases List.append_eq_nil.mp hp with ⟨-, h2⟩
        exact absurd h2 hr
      | cons a b => exact ⟨a, b, rfl⟩
    cases seg with
    | inr i =>
      cases tree with
      | arr elems =>
        simp only [walkNoCreate] at hw
        by_cases hn : isNul (arrGet elems i)
        · simp [hn] at hw
        · simp only [hn, Bool.false_eq_true, if_false] at hw
          have hrec : setGo v (arrGet elems i) (p' ++ rest) = arrGet elems i :=
            ih (arrGet elems i) c rest hw hr hid
          have hns : isNul (arrGet elems i) = false := by
            simpa using hn
          calc setGo v (JValue.arr elems) (Sum.inr i :: (p' ++ rest))
              = JValue.arr (arrSet elems i
                  (setGo v (arrGet elems i) (p' ++ rest))) := by
                rw [hpr]
                simp only [setGo, hns, Bool.false_eq_true, if_false]
            _ = JValue.arr elems := by rw [hrec, arrSet_get_self elems i hns]
      | nul => simp [walkNoCreate] at hw
      | str s => simp [walkNoCreate] at hw
      | num n => simp [walkNoCreate] at hw
      | bool b => simp [walkNoCreate] at hw
      | obj fields => simp [walkNoCreate] at hw
    | inl k =>
      cases tree with
      | obj fields =>
        simp only [walkNoCreate] at hw
        by_cases hn : isNul (objGet fields k)
        · simp [hn] at hw
        · simp only [hn, Bool.false_eq_true, if_false] at hw
          have hrec : setGo v (objGet fields k) (p' ++ rest) = objGet fields k :=
            ih (objGet fields k) c rest hw hr hid
          have hns : isNul (objGet fields k) = false := by
            simpa using hn
          calc setGo v (JValue.obj fields) (Sum.inl k :: (p' ++ rest))
              = JValue.obj (objSet fields k
                  (setGo v (objGet fields k) (p' ++ rest))) := by
                rw [hpr]
                simp only [setGo, hns, Bool.false_eq_true, if_false]
            _ = JValue.obj fields := by rw [hrec, objSet_get_self fields k hns]
      | nul => simp [walkNoCreate] at hw
      | str s => simp [walkNoCreate] at hw
      | num n => simp [walkNoCreate] at hw
      | bool b => simp [walkNoCreate] at hw
      | arr elems => simp [walkNoCreate] at hw

theorem setGo_mismatch_id (v : JValue) (c : JValue) (last : Seg)
    (h : segMismatch c last = true) : setGo v c [last] = c := by
  cases last with
  | inr i =>
    cases c <;> simp_all [segMismatch, isSequence, setGo]
  | inl k =>
    cases c <;> simp_all [segMismatch, isMapping, setGo]

/-- C2: for every tree, non-empty path and value, if the container reached at
the final segment is not a sequence while the final segment is an integer, or
is not a mapping while the final segment is a string, then `setPathValue`
leaves the tree unchanged (a silent no-op). -/
theorem setPathValue_mismatch_noop (tree c v : JValue) (p : List Seg)
    (last : Seg) (hw : walkNoCreate tree p = some c)
    (hm : segMismatch c last = true) :
    setPathValue tree (p ++ [last]) v = tree := by
  rw [setPathValue_eq_setGo tree v (p ++ [last]) (by simp)]
  exact setGo_walk_id v p tree c [last] hw (by simp)
    (setGo_mismatch_id v c last hm)

theorem setPathValue_mismatch_noop_witness :
    walkNoCreate (.obj [("a", .arr [.str "x"])]) [Sum.inl "a"]
      = some (.arr [.str "x"])
    ∧ segMismatch (.arr [.str "x"]) (Sum.inl "k") = true
    ∧ setPathValue (.obj [("a", .arr [.str "x"])])
        ([Sum.inl "a"] ++ [Sum.inl "k"]) (.num 1)
      = .obj [("a", .arr [.str "x"])] :=
  ⟨rfl, rfl,
    setPathValue_mismatch_noop (.obj [("a", .arr [.str "x"])]) (.arr [.str "x"])
      (.num 1) [Sum.inl "a"] (Sum.inl "k") rfl rfl⟩

theorem setGo_scalar_id (v : JValue) (c : JValue) (rest : List Seg)
    (hs : isScalar c = true) (hr : rest ≠ []) : setGo v c rest = c := by
  cases rest with
  | nil => exact absurd rfl hr
  | cons r1 rs =>
    cases rs with
    | nil => cases r1 <;> cases c <;> simp_all [setGo, isScalar]
    | cons r2 rs' => cases r1 <;> cases c <;> simp_all [setGo, isScalar]

/-- C10: `setPathValue` creates intermediate containers only at null or
undefined slots; whenever the walk reaches a non-null scalar (string, number
or boolean) before the final segment, it never replaces the scalar with a
container and the whole operation leaves the tree unchanged. -/
theorem setPathValue_scalar_intermediate_noop (tree c v : JValue)
    (p rest : List Seg) (hw : walkNoCreate tree p = some c)
    (hs : isScalar c = true) (hr : rest ≠ []) :
    setPathValue tree (p ++ rest) v = tree := by
  have hne : p ++ rest ≠ [] := by
    intro hp
    rcases List.append_eq_nil.mp hp with ⟨-, h2⟩
    exact hr h2
  rw [setPathValue_eq_setGo tree v (p ++ rest) hne]
  exact setGo_walk_id v p tree c rest hw hr (setGo_scalar_id v c rest hs hr)

theorem setPathValue_scalar_intermediate_noop_witness :
    walkNoCreate (.obj [("a", .num 5)]) [Sum.inl "a"] = some (.num 5)
    ∧ isScalar (.num 5) = true
    ∧ setPathValue (.obj [("a", .num 5)])
        ([Sum.inl "a"] ++ [Sum.inl "b", Sum.inr 0]) (.str "v")
      = .obj [("a", .num 5)] :=
  ⟨rfl, rfl,
    setPathValue_scalar_intermediate_noop (.obj [("a", .num 5)]) (.num 5)
      (.str "v") [Sum.inl "a"] [Sum.inl "b", Sum.inr 0] rfl rfl (by simp)⟩

/-- Truth of the JavaScript expression `v ?? x7bx7d`: null and undefined are
replaced by an empty object, everything else kept. -/
def orEmptyObj (v : JValue) : JValue :=
  if isNul v then .obj [] else v

/-- Property access `v[k]` on an arbitrary value: objects look the key up,
while primitives and JSON-derived arrays read undefined for the keys the
embedded code accesses. -/
def jsGet (v : JValue) (k : String) : JValue :=
  match v with
  | .obj fields => objGet fields k
  | _ => .nul

mutual
/-- JavaScript String(v) on JSON-shaped values: the default conversions for
primitives, plain objects and arrays (arrays join their elements with commas,
null and undefined elements rendering as empty). -/
def jsToString : JValue → String
  | .nul => "null"
  | .str s => s
  | .num n => toString n
  | .bool b => cond b "true" "false"
  | .arr es => jsToStringList es
  | .obj _ => "[object Object]"

/-- Element-wise stringification used by the array case of `jsToString`. -/
def jsToStringList : List JValue → String
  | [] => ""
  | [v] => if isNul v then "" else jsToString v
  | v :: rest => (if isNul v then "" else jsToString v) ++ "," ++ jsToStringList rest
end

/-- Model of the `toList` helper (config.ts lines 106-112): an array is
trimmed element-wise, blank entries are dropped, and the rest joined with
a comma and a space; every non-array input yields the empty string. -/
def toList (value : JValue) : String :=
  match value with
  | .arr es =>
    String.intercalate ", "
      ((es.map (fun v => (jsToString (if isNul v then .str "" else v)).trim)).filter
        (fun s => 0 < s.length))
  | _ => ""

/-- Indentation of n spaces. -/
def spacesN (n : Nat) : String := String.mk (List.replicate n ' ')

/-- JSON string escaping for the characters that occur in the embedded data;
no claim depends on the rendered text of a serialized configuration. -/
def jsonEscape (s : String) : String :=
  String.join (s.data.map (fun c =>
    if c = '\\' then "\\\\"
    else if c = '"' then "\\\""
    else if c = '\n' then "\\n"
    else String.singleton c))

/-- Quoted JSON string literal. -/
def jsonQuote (s : String) : String := "\"" ++ jsonEscape s ++ "\""

mutual
/-- Model of `JSON.stringify(v, null, 2)` at an ambient indentation level. -/
def serializeJson : JValue → Nat → String
  | .nul, _ => "null"
  | .bool b, _ => cond b "true" "false"
  | .num n, _ => toString n
  | .str s, _ => jsonQuote s
  | .arr [], _ => "[]"
  | .arr (e :: es), ind =>
    "[\n" ++ serializeArr (e :: es) (ind + 2) ++ "\n" ++ spacesN ind ++ "]"
  | .obj [], _ => "\x7b\x7d"
  | .obj (f :: fs), ind =>
    "\x7b\n" ++ serializeObj (f :: fs) (ind + 2) ++ "\n" ++ spacesN ind ++ "\x7d"

/-- Array elements of a pretty-printed JSON document. -/
def serializeArr : List JValue → Nat → String
  | [], _ => ""
  | [v], ind => spacesN ind ++ serializeJson v ind
  | v :: rest, ind =>
    spacesN ind ++ serializeJson v ind ++ ",\n" ++ serializeArr rest ind

/-- Object entries of a pretty-printed JSON document. -/
def serializeObj : List (String × JValue) → Nat → String
  | [], _ => ""
  | [(k, v)], ind => spacesN ind ++ jsonQuote k ++ ": " ++ serializeJson v ind
  | (k, v) :: rest, ind =>
    spacesN ind ++ jsonQuote k ++ ": " ++ serializeJson v ind ++ ",\n"
      ++ serializeObj rest ind
end

/-- Removal of trailing whitespace, as `trimEnd()`. -/
def rtrim (s : String) : String :=
  String.mk ((s.data.reverse.dropWhile Char.isWhitespace).reverse)

/-- The persisted text form of a configuration tree:
`JSON.stringify(x, null, 2).trimEnd()` with a trailing newline
(config.ts lines 95 and 388). -/
def prettyConfigJson (v : JValue) : String := rtrim (serializeJson v 0) ++ "\n"

/-- The slack action switches (shape of `defaultSlackActions` from ui-types;
that module is not under src/, so the concrete default values stay an
arbitrary parameter below). -/
structure SlackActions where
  reactions : Bool
  messages : Bool
  pins : Bool
  memberInfo : Bool
  emojiList : Bool

/-- One slack channel row of the projection. -/
structure SlackChannelForm where
  key : String
  allow : Bool
  requireMention : Bool

/-- The slack projection (`SlackForm` of ui-types, fields as read and
written by config.ts lines 249-324). -/
structure SlackForm where
  enabled : Bool
  botToken : String
  appToken : String
  dmEnabled : Bool
  allowFrom : String
  groupEnabled : Bool
  groupChannels : String
  mediaMaxMb : String
  textChunkLimit : String
  reactionNotifications : String
  reactionAllowlist : String
  slashEnabled : Bool
  slashName : String
  slashSessionPrefix : String
  slashEphemeral : Bool
  actions : SlackActions
  channels : List SlackChannelForm

/-- Reading of a boolean field with a default, as
`typeof x === "boolean" ? x : d`. -/
def readBool (v : JValue) (d : Bool) : Bool :=
  match v with
  | .bool b => b
  | _ => d

/-- Reading of a string field with a default, as
`typeof x === "string" ? x : d`. -/
def readString (v : JValue) (d : String) : String :=
  match v with
  | .str s => s
  | _ => d

/-- Reading of a numeric field rendered as a string, as
`typeof x === "number" ? String(x) : ""`. -/
def readNumStr (v : JValue) : String :=
  match v with
  | .num n => toString n
  | _ => ""

/-- Reading of `slack.reactionNotifications` (config.ts lines 264-269): one
of the three recognized literals is kept, anything else falls back to
"own". -/
def readReactionNotifications (v : JValue) : String :=
  match v with
  | .str s => if s = "off" ∨ s = "all" ∨ s = "allowlist" then s else "own"
  | _ => "own"

/-- Reading of `slack.channels` (config.ts lines 303-323): an array yields
no rows, a non-null object maps each entry to a channel row, everything else
yields no rows. -/
def readSlackChannels (v : JValue) : List SlackChannelForm :=
  match v with
  | .obj fields =>
    fields.map (fun kv =>
      let entry := if isMapping kv.2 then kv.2 else JValue.obj []
      { key := kv.1
        allow := readBool (jsGet entry "allow") true
        requireMention := readBool (jsGet entry "requireMention") false })
  | _ => []

/-- Derivation of the slack projection from the (already `?? x7bx7d`
defaulted) slack section of a snapshot config, mirroring config.ts lines
244-324. `dAct` stands for `defaultSlackActions` (ui-types, not under
src/). -/
def deriveSlackForm (dAct : SlackActions) (slack : JValue) : SlackForm :=
  let slackDm := orEmptyObj (jsGet slack "dm")
  let slackSlash := orEmptyObj (jsGet slack "slashCommand")
  let slackActions := orEmptyObj (jsGet slack "actions")
  { enabled := readBool (jsGet slack "enabled") true
    botToken := readString (jsGet slack "botToken") ""
    appToken := readString (jsGet slack "appToken") ""
    dmEnabled := readBool (jsGet slackDm "enabled") true
    allowFrom := toList (jsGet slackDm "allowFrom")
    groupEnabled := readBool (jsGet slackDm "groupEnabled") false
    groupChannels := toList (jsGet slackDm "groupChannels")
    mediaMaxMb := readNumStr (jsGet slack "mediaMaxMb")
    textChunkLimit := readNumStr (jsGet slack "textChunkLimit")
    reactionNotifications :=
      readReactionNotifications (jsGet slack "reactionNotifications")
    reactionAllowlist := toList (jsGet slack "reactionAllowlist")
    slashEnabled := readBool (jsGet slackSlash "enabled") false
    slashName := readString (jsGet slackSlash "name") ""
    slashSessionPrefix := readString (jsGet slackSlash "sessionPrefix") ""
    slashEphemeral := readBool (jsGet slackSlash "ephemeral") true
    actions :=
      { reactions := readBool (jsGet slackActions "reactions") dAct.reactions
        messages := readBool (jsGet slackActions "messages") dAct.messages
        pins := readBool (jsGet slackActions "pins") dAct.pins
        memberInfo := readBool (jsGet slackActions "memberInfo") dAct.memberInfo
        emojiList := readBool (jsGet slackActions "emojiList") dAct.emojiList }
    channels := readSlackChannels (jsGet slack "channels") }

/-- The documented all-defaults slack projection (every field at its named
default; matches the repository test fixture baseSlackForm). -/
def defaultSlackForm (dAct : SlackActions) : SlackForm :=
  { enabled := true
    botToken := ""
    appToken := ""
    dmEnabled := true
    allowFrom := ""
    groupEnabled := false
    groupChannels := ""
    mediaMaxMb := ""
    textChunkLimit := ""
    reactionNotifications := "own"
    reactionAllowlist := ""
    slashEnabled := false
    slashName := ""
    slashSessionPrefix := ""
    slashEphemeral := true
    actions := dAct
    channels := [] }

/-- Negations of the typeof guards used by the slack projection. -/
def notBool (v : JValue) : Bool :=
  match v with
  | .bool _ => false
  | _ => true

/-- Negation of the string typeof guard. -/
def notStr (v : JValue) : Bool :=
  match v with
  | .str _ => false
  | _ => true

/-- Negation of the number typeof guard. -/
def notNum (v : JValue) : Bool :=
  match v with
  | .num _ => false
  | _ => true

/-- Negation of the Array.isArray guard. -/
def notArr (v : JValue) : Bool := !(isSequence v)

/-- Failure of the reactionNotifications literal guard: the value is not one
of the three recognized literals. -/
def reactionDefaulted (v : JValue) : Bool :=
  match v with
  | .str s => if s = "off" ∨ s = "all" ∨ s = "allowlist" then false else true
  | _ => true

/-- The channels field contributes no rows: it is not an object, or an
object with no entries. -/
def channelsDefaulted (v : JValue) : Bool :=
  match v with
  | .obj fields => fields.isEmpty
  | _ => true

/-- Claim C7 premise: every slack field the projection reads is absent or of
the wrong type, so each read falls back to its named default. A config with
no slack section at all satisfies this (every read misses). -/
def slackFieldsDefaulted (slack : JValue) : Bool :=
  let slackDm := orEmptyObj (jsGet slack "dm")
  let slackSlash := orEmptyObj (jsGet slack "slashCommand")
  let slackActions := orEmptyObj (jsGet slack "actions")
  notBool (jsGet slack "enabled") && notStr (jsGet slack "botToken")
  && notStr (jsGet slack "appToken")
  && notBool (jsGet slackDm "enabled") && notArr (jsGet slackDm "allowFrom")
  && notBool (jsGet slackDm "groupEnabled")
  && notArr (jsGet slackDm "groupChannels")
  && notNum (jsGet slack "mediaMaxMb") && notNum (jsGet slack "textChunkLimit")
  && reactionDefaulted (jsGet slack "reactionNotifications")
  && notArr (jsGet slack "reactionAllowlist")
  && notBool (jsGet slackSlash "enabled") && notStr (jsGet slackSlash "name")
  && notStr (jsGet slackSlash "sessionPrefix")
  && notBool (jsGet slackSlash "ephemeral")
  && notBool (jsGet slackActions "reactions")
  && notBool (jsGet slackActions "messages")
  && notBool (jsGet slackActions "pins")
  && notBool (jsGet slackActions "memberInfo")
  && notBool (jsGet slackActions "emojiList")
  && channelsDefaulted (jsGet slack "channels")

theorem readBool_default (v : JValue) (d : Bool) (h : notBool v = true) :
    readBool v d = d := by
  cases v <;> simp_all [notBool, readBool]

theorem readString_default (v : JValue) (d : String) (h : notStr v = true) :
    readString v d = d := by
  cases v <;> simp_all [notStr, readString]

theorem readNumStr_default (v : JValue) (h : notNum v = true) :
    readNumStr v = "" := by
  cases v <;> simp_all [notNum, readNumStr]

theorem toList_default (v : JValue) (h : notArr v = true) : toList v = "" := by
  cases v <;> simp_all [notArr, isSequence, toList]

theorem readReactionNotifications_default (v : JValue)
    (h : reactionDefaulted v = true) : readReactionNotifications v = "own" := by
  cases v with
  | str s =>
    simp only [reactionDefaulted] at h
    simp only [readReactionNotifications]
    split
    · simp_all
    · rfl
  | nul => rfl
  | num n => rfl
  | bool b => rfl
  | arr es => rfl
  | obj fs => rfl

theorem readSlackChannels_default (v : JValue)
    (h : channelsDefaulted v = true) : readSlackChannels v = [] := by
  cases v with
  | obj fs =>
    simp only [channelsDefaulted] at h
    simp [readSlackChannels, List.isEmpty_iff.mp h]
  | nul => rfl
  | str s => rfl
  | num n => rfl
  | bool b => rfl
  | arr es => rfl

/-- A slack section whose fields are all absent or mistyped projects to the
all-defaults record. -/
theorem deriveSlackForm_defaults (dAct : SlackActions) (slack : JValue)
    (h : slackFieldsDefaulted slack = true) :
    deriveSlackForm dAct slack = defaultSlackForm dAct := by
  simp only [slackFieldsDefaulted, Bool.and_eq_true] at h
  obtain ⟨⟨⟨⟨⟨⟨⟨⟨⟨⟨⟨⟨⟨⟨⟨⟨⟨⟨⟨⟨h1, h2⟩, h3⟩, h4⟩, h5⟩, h6⟩, h7⟩, h8⟩, h9⟩,
    h10⟩, h11⟩, h12⟩, h13⟩, h14⟩, h15⟩, h16⟩, h17⟩, h18⟩, h19⟩, h20⟩,
    h21⟩ := h
  obtain ⟨a1, a2, a3, a4, a5⟩ := dAct
  simp only [deriveSlackForm, defaultSlackForm, SlackForm.mk.injEq,
    SlackActions.mk.injEq]
  exact ⟨readBool_default _ _ h1, readString_default _ _ h2,
    readString_default _ _ h3, readBool_default _ _ h4, toList_default _ h5,
    readBool_default _ _ h6, toList_default _ h7, readNumStr_default _ h8,
    readNumStr_default _ h9, readReactionNotifications_default _ h10,
    toList_default _ h11, readBool_default _ _ h12, readString_default _ _ h13,
    readString_default _ _ h14, readBool_default _ _ h15,
    ⟨readBool_default _ _ h16, readBool_default _ _ h17,
      readBool_default _ _ h18, readBool_default _ _ h19,
      readBool_default _ _ h20⟩, readSlackChannels_default _ h21⟩

/-- The server snapshot (`ConfigSnapshot` of ui/types): each field is an
arbitrary JSON value, `nul` standing for an absent field, since
`applyConfigSnapshot` type-checks every field it reads. -/
structure ConfigSnapshotM where
  config : JValue
  raw : JValue
  valid : JValue
  issues : JValue

/-- Editing mode of the config panel. -/
inductive ConfigFormMode where
  | form
  | raw

/-- The controller state (`ConfigState`, config.ts lines 21-48), restricted
to the fields consulted by the claims. The omitted fields (schema data, the
telegram/discord/signal/imessage projections and the per-integration status
strings) are recomputed by `applyConfigSnapshot` with the same
total-defaulting pattern as the slack projection modelled here, and no claim
reads them. -/
structure ConfigState where
  client : Bool
  connected : Bool
  configLoading : Bool
  configRaw : String
  configValid : Option Bool
  configIssues : List JValue
  configSaving : Bool
  configSnapshot : Option ConfigSnapshotM
  configForm : Option JValue
  configFormDirty : Bool
  configFormMode : ConfigFormMode
  lastError : Option String
  slackForm : SlackForm

/-- Model of `applyConfigSnapshot` (config.ts lines 90-379): stores the
snapshot, derives the raw text (preferring an explicit raw string, else
pretty-printing an object-shaped config), derives validity and issues,
recomputes the slack projection by total defaulting, and refreshes the form
value from a copy of the snapshot config only when the form is not dirty
(lines 376-378). -/
def applyConfigSnapshot (dAct : SlackActions) (st : ConfigState)
    (snapshot : ConfigSnapshotM) : ConfigState :=
  let config := orEmptyObj snapshot.config
  { st with
    configSnapshot := some snapshot
    configRaw :=
      match snapshot.raw with
      | .str s => s
      | _ =>
        if isMapping snapshot.config || isSequence snapshot.config then
          prettyConfigJson snapshot.config
        else st.configRaw
    configValid :=
      match snapshot.valid with
      | .bool b => some b
      | _ => none
    configIssues :=
      match snapshot.issues with
      | .arr l => l
      | _ => []
    slackForm := deriveSlackForm dAct (orEmptyObj (jsGet config "slack"))
    configForm :=
      if st.configFormDirty then st.configForm
      else some (orEmptyObj snapshot.config) }

/-- A deep, structure-sharing-free copy (`structuredClone`); on pure values a
copy is the value itself. -/
def cloneConfigObject (v : JValue) : JValue := v

/-- Model of `updateConfigFormValue` (config.ts lines 400-411): seed from the
current form value or, if absent, from the snapshot config (or an empty
object), clone, apply the path write, store back and set dirty. -/
def updateConfigFormValue (st : ConfigState) (path : List Seg)
    (value : JValue) : ConfigState :=
  let base := cloneConfigObject
    (match st.configForm with
     | some f => f
     | none =>
       match st.configSnapshot with
       | some snap => orEmptyObj snap.config
       | none => .obj [])
  { st with
    configForm := some (setPathValue base path value)
    configFormDirty := true }

/-- Model of `removeConfigFormValue` (config.ts lines 413-423). -/
def removeConfigFormValue (st : ConfigState) (path : List Seg) : ConfigState :=
  let base := cloneConfigObject
    (match st.configForm with
     | some f => f
     | none =>
       match st.configSnapshot with
       | some snap => orEmptyObj snap.config
       | none => .obj [])
  { st with
    configForm := some (removePathValue base path)
    configFormDirty := true }

/-- The text sent to `config.set`: the pretty-printed structured form value
when the panel is in form mode and the form value is non-null, else the raw
text (config.ts lines 386-389). -/
def savePayload (st : ConfigState) : String :=
  match st.configFormMode, st.configForm with
  | .form, some f => prettyConfigJson f
  | _, _ => st.configRaw

/-- Synchronous prefix of the async `saveConfig` (config.ts lines 381-398):
the connection guard, the saving-flag set, the error reset, the payload
computation and the initiation of the network send all run before the first
await point; the rest of the function (dirty clear, reload, flag reset in
the finally block) runs only after the request resolves. The first component
is the payload handed to the network, or `none` when no send happens. -/
def saveConfigStart (st : ConfigState) : Option String × ConfigState :=
  if st.client && st.connected then
    (some (savePayload st), { st with configSaving := true, lastError := none })
  else (none, st)

/-- Sample slack action defaults for concrete instances. -/
def demoActions : SlackActions :=
  { reactions := true
    messages := true
    pins := true
    memberInfo := true
    emojiList := false }

/-- A connected state with raw text "demo", raw mode, no form value. -/
def saveDemoState : ConfigState :=
  { client := true
    connected := true
    configLoading := false
    configRaw := "demo"
    configValid := none
    configIssues := []
    configSaving := false
    configSnapshot := none
    configForm := none
    configFormDirty := false
    configFormMode := .raw
    lastError := none
    slackForm := defaultSlackForm demoActions }

/-- C1 counterexample: from a connected state, the first save sends and
leaves the saving flag set; a second save begun in exactly that in-flight
state, whose configSaving flag is true, performs another network send. This
refutes the claim that a save re-entered while the guard flag is set sends
nothing: saveConfig sets configSaving but never tests it on entry. -/
theorem saveConfig_reentry_counterexample :
    (saveConfigStart saveDemoState).1 = some "demo"
    ∧ (saveConfigStart saveDemoState).2.configSaving = true
    ∧ (saveConfigStart (saveConfigStart saveDemoState).2).1 = some "demo" :=
  ⟨rfl, rfl, rfl⟩

/-- C1 amended: saveConfig has no re-entry guard. Whenever a client is
present and connected, the synchronous prefix of save initiates a network
send and sets the saving flag, regardless of the current value of
configSaving; in particular a second save started while one is in flight
sends again (only loadConfigSchema drops a re-entrant call). -/
theorem saveConfig_sends_regardless_of_saving (st : ConfigState)
    (hc : st.client = true) (hn : st.connected = true) :
    (saveConfigStart st).1 = some (savePayload st)
    ∧ (saveConfigStart st).2.configSaving = true := by
  simp [saveConfigStart, hc, hn]

theorem saveConfig_sends_regardless_of_saving_witness :
    ({ saveDemoState with configSaving := true } : ConfigState).client = true
    ∧ (saveConfigStart { saveDemoState with configSaving := true }).1
        = some (savePayload { saveDemoState with configSaving := true })
    ∧ (saveConfigStart
        { saveDemoState with configSaving := true }).2.configSaving = true :=
  ⟨rfl, (saveConfig_sends_regardless_of_saving _ rfl rfl).1,
    (saveConfig_sends_regardless_of_saving _ rfl rfl).2⟩

/-- C9: in form mode with a null form value, save sends the raw text
configRaw; the serialization of the structured form value is sent only when
the form value is non-null. -/
theorem saveConfig_form_null_sends_raw (st : ConfigState)
    (hc : st.client = true) (hn : st.connected = true)
    (hm : st.configFormMode = ConfigFormMode.form) :
    (st.configForm = none → (saveConfigStart st).1 = some st.configRaw)
    ∧ (∀ f, st.configForm = some f →
        (saveConfigStart st).1 = some (prettyConfigJson f)) := by
  constructor
  · intro h0
    simp [saveConfigStart, hc, hn, savePayload, hm, h0]
  · intro f hf
    simp [saveConfigStart, hc, hn, savePayload, hm, hf]

theorem saveConfig_form_null_sends_raw_witness :
    ({ saveDemoState with configFormMode := ConfigFormMode.form } :
        ConfigState).configForm = none
    ∧ (saveConfigStart
          { saveDemoState with configFormMode := ConfigFormMode.form }).1
        = some ({ saveDemoState with
            configFormMode := ConfigFormMode.form } : ConfigState).configRaw :=
  ⟨rfl, (saveConfig_form_null_sends_raw _ rfl rfl rfl).1 rfl⟩

/-- C5: updateConfigFormValue on a null form value seeds the form from the
snapshot's config, applies the patch and sets the dirty flag; and
applyConfigSnapshot leaves the form value of every dirty state unchanged (a
dirty form is never overwritten by a snapshot application). -/
theorem updateFormValue_seeds_and_dirty_never_overwritten :
    (∀ (st : ConfigState) (snap : ConfigSnapshotM) (path : List Seg)
        (value : JValue),
      st.configForm = none → st.configSnapshot = some snap →
      (updateConfigFormValue st path value).configForm
          = some (setPathValue (orEmptyObj snap.config) path value)
        ∧ (updateConfigFormValue st path value).configFormDirty = true)
    ∧ (∀ (dAct : SlackActions) (st : ConfigState) (snap : ConfigSnapshotM),
      st.configFormDirty = true →
      (applyConfigSnapshot dAct st snap).configForm = st.configForm) := by
  constructor
  · intro st snap path value h0 hs
    refine ⟨?_, rfl⟩
    simp [updateConfigFormValue, h0, hs, cloneConfigObject]
  · intro dAct st snap hd
    simp [applyConfigSnapshot, hd]

/-- A snapshot carrying a structured config with no slack section. -/
def demoSnap : ConfigSnapshotM :=
  { config := .obj [("gateway", .obj [("mode", .str "local")])]
    raw := .str ""
    valid := .bool true
    issues := .arr [] }

theorem updateFormValue_seeds_and_dirty_never_overwritten_witness :
    (({ saveDemoState with configSnapshot := some demoSnap } :
          ConfigState).configForm = none
      ∧ (updateConfigFormValue
            { saveDemoState with configSnapshot := some demoSnap }
            [Sum.inl "gateway", Sum.inl "port"] (.num 18789)).configForm
          = some (setPathValue (orEmptyObj demoSnap.config)
              [Sum.inl "gateway", Sum.inl "port"] (.num 18789))
      ∧ (updateConfigFormValue
            { saveDemoState with configSnapshot := some demoSnap }
            [Sum.inl "gateway", Sum.inl "port"] (.num 18789)).configFormDirty
          = true)
    ∧ (({ saveDemoState with configFormDirty := true } :
          ConfigState).configFormDirty = true
      ∧ (applyConfigSnapshot demoActions
            { saveDemoState with configFormDirty := true } demoSnap).configForm
          = ({ saveDemoState with configFormDirty := true } :
              ConfigState).configForm) :=
  ⟨⟨rfl,
    (updateFormValue_seeds_and_dirty_never_overwritten.1 _ demoSnap _ _
      rfl rfl).1,
    (updateFormValue_seeds_and_dirty_never_overwritten.1 _ demoSnap _ _
      rfl rfl).2⟩,
   ⟨rfl,
    updateFormValue_seeds_and_dirty_never_overwritten.2 demoActions _ demoSnap
      rfl⟩⟩

/-- C7: applying a snapshot whose config has no slack section — and more
generally any snapshot whose slack fields are absent or of the wrong type —
produces a slack projection equal to the all-defaults record, with no
exception path involved (every read is totally defaulted). -/
theorem applyConfigSnapshot_slack_defaults (dAct : SlackActions)
    (st : ConfigState) (snap : ConfigSnapshotM)
    (h : slackFieldsDefaulted
        (orEmptyObj (jsGet (orEmptyObj snap.config) "slack")) = true) :
    (applyConfigSnapshot dAct st snap).slackForm = defaultSlackForm dAct :=
  deriveSlackForm_defaults dAct _ h

theorem applyConfigSnapshot_slack_defaults_witness :
    slackFieldsDefaulted
        (orEmptyObj (jsGet (orEmptyObj demoSnap.config) "slack")) = true
    ∧ (applyConfigSnapshot demoActions saveDemoState demoSnap).slackForm
        = defaultSlackForm demoActions :=
  ⟨rfl, applyConfigSnapshot_slack_defaults demoActions saveDemoState demoSnap
    rfl⟩

/-- Literal values carried by the enum and const schema fields, compared as
the normalizer compares them, by Object.is: primitives compare by value,
while `ref id` stands for a composite literal (an object or array), two of
which are Object.is-equal only when they are the same reference, modelled as
the same id. -/
inductive JLit where
  | nul
  | str (s : String)
  | num (n : Int)
  | bool (b : Bool)
  | ref (id : Nat)
  deriving DecidableEq

/-- A raw JSON-schema node (the JsonSchema type of part_002, lines 13-27):
`type` is a string or a list of strings, `items` a schema or a list of
schemas, `addProps` the additionalProperties field (a boolean or a schema),
`cst` the const field — present with a literal value, `JLit.nul` standing for
both `const: null` and `const: undefined`, which the normalizer treats
alike. An absent or null-valued field is `none`. The presentation-only
fields title, description and default are omitted: the normalizer copies
them through unread. -/
inductive JSchema where
  | mk
    (type : Option (String ⊕ List String))
    (properties : Option (List (String × JSchema)))
    (items : Option (JSchema ⊕ List JSchema))
    (addProps : Option (Bool ⊕ JSchema))
    (enum : Option (List JLit))
    (cst : Option JLit)
    (anyOf : Option (List JSchema))
    (oneOf : Option (List JSchema))
    (allOf : Option (List JSchema))
    (nullable : Option Bool)

/-- Dotted path key (part_002 lines 298-300); normalizer paths consist of
string segments only (property keys and the wildcard "*"). -/
def pathKey (path : List String) : String := String.intercalate "." path

/-- The label recorded for a node: `pathKey(path) || "<root>"`
(part_002 line 434); the empty string is the only falsy string. -/
def pathLabel (path : List String) : String :=
  if pathKey path = "" then "<root>" else pathKey path

/-- Model of `schemaType` (part_002 lines 263-270): a type list is filtered
of "null" and its first remaining entry taken, falling back to the first
entry of the original list. -/
def schemaType (s : JSchema) : Option String :=
  match s with
  | .mk ty _ _ _ _ _ _ _ _ _ =>
    match ty with
    | none => none
    | some (.inl t) => some t
    | some (.inr ts) =>
      match ts.filter (fun t => t != "null") with
      | [] => ts.head?
      | t :: _ => some t

/-- Test for the null literal (`value === null || value === undefined`). -/
def isNulLit : JLit → Bool
  | .nul => true
  | _ => false

/-- One step of the Object.is deduplication loop: push the value unless an
equal entry is already present. -/
def pushUniqueLit (acc : List JLit) (v : JLit) : List JLit :=
  if v ∈ acc then acc else acc ++ [v]

/-- First-occurrence deduplication by Object.is, as in part_002 lines
551-554 and 582-585. -/
def dedupLits (l : List JLit) : List JLit := l.foldl pushUniqueLit []

/-- Model of `normalizeEnumValues` (part_002 lines 579-587): strip null and
undefined, record whether anything was stripped, deduplicate. -/
def normalizeEnumValues (values : List JLit) : List JLit × Bool :=
  let filtered := values.filter (fun v => !(isNulLit v))
  (dedupLits filtered, filtered.length != values.length)

/-- First-occurrence deduplication of the unsupported-path list, as
`Array.from(new Set(paths))` (part_002 line 512). -/
def dedupStr (l : List String) : List String :=
  l.foldl (fun acc s => if s ∈ acc then acc else acc ++ [s]) []

/-- The union variant list `schema.anyOf ?? schema.oneOf ?? schema.allOf`
(part_002 line 520); the union branch guard of line 436 tests the same three
fields for truthiness, and a present variant list (even an empty one) is
truthy. -/
def unionVariants (s : JSchema) : Option (List JSchema) :=
  match s with
  | .mk _ _ _ _ _ _ ao oo alo _ =>
    match ao with
    | some l => some l
    | none =>
      match oo with
      | some l => some l
      | none => alo

/-- The variant partition loop of `normalizeUnion` (part_002 lines 522-548):
collected literal values (in traversal order), non-literal variants (in
traversal order), and whether a null variant or null literal was seen. An
enum variant contributes its stripped, per-variant deduplicated values; a
const variant contributes its value or, for a null const, only nullability;
a null-typed variant contributes nullability; everything else is
non-literal. -/
def partitionVariants : List JSchema → List JLit × List JSchema × Bool
  | [] => ([], [], false)
  | JSchema.mk _ _ _ _ (some l) _ _ _ _ _ :: rest =>
    let r := partitionVariants rest
    let ne := normalizeEnumValues l
    (ne.1 ++ r.1, r.2.1, ne.2 || r.2.2)
  | JSchema.mk _ _ _ _ none (some c) _ _ _ _ :: rest =>
    let r := partitionVariants rest
    if isNulLit c then (r.1, r.2.1, true)
    else (c :: r.1, r.2.1, r.2.2)
  | JSchema.mk ty pr it ap none none ao oo alo nb :: rest =>
    let r := partitionVariants rest
    if schemaType (JSchema.mk ty pr it ap none none ao oo alo nb) = some "null"
    then (r.1, r.2.1, true)
    else (r.1, JSchema.mk ty pr it ap none none ao oo alo nb :: r.2.1, r.2.2)

/-- The collapsed literal-union node (part_002 lines 555-565): the original
node with its enum replaced by the deduplicated value union, nullable set to
the collected flag, and the three union fields cleared. -/
def collapseUnion (s : JSchema) (values : List JLit) (nb : Bool) : JSchema :=
  match s with
  | .mk ty pr it ap _ cs _ _ _ _ =>
    .mk ty pr it ap (some (dedupLits values)) cs none none none (some nb)

/-- Forcing `result.schema.nullable = true` (part_002 line 571). -/
def setNullableTrue (s : JSchema) : JSchema :=
  match s with
  | .mk ty pr it ap en cs ao oo alo _ => .mk ty pr it ap en cs ao oo alo (some true)

/-- Result of schema analysis: the normalized node (null only for a missing
or non-object root) and the unsupported-path list. -/
structure ConfigSchemaAnalysis where
  schema : Option JSchema
  unsupportedPaths : List String

/-- Whether the raw type field is an array containing "null"
(part_002 lines 443-444). -/
def typeHasNull (ty : Option (String ⊕ List String)) : Bool :=
  match ty with
  | some (.inr ts) => ts.contains "null"
  | _ => false

/-- JavaScript truthiness of the additionalProperties field: `false` and an
absent field are falsy, `true` and any schema are truthy. -/
def addPropsTruthy (ap : Option (Bool ⊕ JSchema)) : Bool :=
  match ap with
  | some (.inl b) => b
  | some (.inr _) => true
  | none => false

/-- The computed node type (part_002 lines 445-447): `schemaType`, else
"object" when properties or additionalProperties are (truthily) present. -/
def computedType (s : JSchema) : Option String :=
  match schemaType s with
  | some t => some t
  | none =>
    match s with
    | .mk _ pr _ ap _ _ _ _ _ _ =>
      if pr.isSome || addPropsTruthy ap then some "object" else none

/-- The enum-normalization step of `normalizeSchemaNode` (part_002 lines
451-460): the rewritten enum field, the updated nullable field, and the
label pushed when the stripped enum is empty. -/
def enumStep (en : Option (List JLit)) (nul0 : Option Bool) (label : String) :
    Option (List JLit) × Option Bool × List String :=
  match en with
  | none => (none, nul0, [])
  | some l =>
    let ne := normalizeEnumValues l
    (some ne.1, (if ne.2 then some true else nul0),
      if ne.1 = [] then [label] else [])

theorem sizeOf_lt_of_unionVariants (s : JSchema) (l : List JSchema)
    (h : unionVariants s = some l) : sizeOf l < sizeOf s := by
  cases s with
  | mk ty pr it ap en cs ao oo alo nb =>
    simp only [unionVariants] at h
    cases ao with
    | some a =>
      simp only [Option.some.injEq] at h
      subst h
      simp [JSchema.mk.sizeOf_spec]
      omega
    | none =>
      cases oo with
      | some a =>
        simp only [Option.some.injEq] at h
        subst h
        simp [JSchema.mk.sizeOf_spec]
        omega
      | none =>
        cases alo with
        | some a =>
          simp only [Option.some.injEq] at h
          subst h
          simp [JSchema.mk.sizeOf_spec]
          omega
        | none => simp at h

theorem mem_of_partition_nonLit (l : List JSchema) (v : JSchema)
    (h : v ∈ (partitionVariants l).2.1) : v ∈ l := by
  induction l with
  | nil => simp [partitionVariants] at h
  | cons a rest ih =>
    cases a with
    | mk ty pr it ap en cs ao oo alo nb =>
      cases en with
      | some el =>
        simp only [partitionVariants] at h
        exact List.mem_cons_of_mem _ (ih h)
      | none =>
        cases cs with
        | some c =>
          simp only [partitionVariants] at h
          by_cases hc : isNulLit c = true
          · rw [if_pos hc] at h
            exact List.mem_cons_of_mem _ (ih h)
          · rw [if_neg hc] at h
            exact List.mem_cons_of_mem _ (ih h)
        | none =>
          simp only [partitionVariants] at h
          by_cases ht : schemaType (JSchema.mk ty pr it ap none none ao oo alo nb)
              = some "null"
          · rw [if_pos ht] at h
            exact List.mem_cons_of_mem _ (ih h)
          · rw [if_neg ht] at h
            rcases List.mem_cons.mp h with h1 | h2
            · exact h1 ▸ List.mem_cons_self _ _
            · exact List.mem_cons_of_mem _ (ih h2)

/-- The nullable value before enum handling (part_002 line 449):
`nullable || schema.nullable` with nullable computed from a type array
containing "null". -/
def baseNullable (ty : Option (String ⊕ List String)) (nb : Option Bool) :
    Option Bool :=
  if typeHasNull ty then some true else nb

/-- The rewritten type field (part_002 line 448): the computed type when
classified, else the original type field. -/
def newTypeField (T : Option String) (ty : Option (String ⊕ List String)) :
    Option (String ⊕ List String) :=
  match T with
  | some t => some (Sum.inl t)
  | none => ty

theorem sizeOf_nonLit_le (l : List JSchema) :
    sizeOf (partitionVariants l).2.1 ≤ sizeOf l := by
  induction l with
  | nil => simp [partitionVariants]
  | cons a rest ih =>
    have hc := List.cons.sizeOf_spec a rest
    cases a with
    | mk ty pr it ap en cs ao oo alo nb =>
      cases en with
      | some el =>
        simp only [partitionVariants]
        omega
      | none =>
        cases cs with
        | some c =>
          simp only [partitionVariants]
          by_cases hnl : isNulLit c = true
          · rw [if_pos hnl]
            dsimp only
            omega
          · rw [if_neg hnl]
            dsimp only
            omega
        | none =>
          simp only [partitionVariants]
          by_cases ht : schemaType (JSchema.mk ty pr it ap none none ao oo alo nb)
              = some "null"
          · rw [if_pos ht]
            dsimp only
            omega
          · rw [if_neg ht]
            dsimp only
            have := List.cons.sizeOf_spec
              (JSchema.mk ty pr it ap none none ao oo alo nb)
              (partitionVariants rest).2.1
            omega

mutual
/-- Model of `normalizeSchemaNode` (part_002 lines 428-514). A node carrying
any of anyOf, oneOf or allOf takes the union branch (lines 436-441): a
reducible union is normalized by `normalizeUnion`, otherwise the node is
passed through unmodified with its label recorded. Every other node takes
the plain branch, `plainNorm` below. -/
def normalizeSchemaNode (s : JSchema) (path : List String) :
    ConfigSchemaAnalysis :=
  match hu : unionVariants s with
  | some variants =>
    match normalizeUnion s variants path with
    | some result => result
    | none => ⟨some s, [pathLabel path]⟩
  | none => plainNorm s path
termination_by (sizeOf s, 4)
decreasing_by
  all_goals first
    | exact Prod.Lex.left _ _ (sizeOf_lt_of_unionVariants _ _ hu)
    | exact Prod.Lex.right _ (by omega)

/-- The non-union part of `normalizeSchemaNode` (part_002 lines 443-513):
type computation, nullable derivation, enum rewriting, then the dispatch on
the computed type: the object branch normalizes declared properties and
additionalProperties, the array branch the single item schema, scalars pass
through, and an unclassifiable node without an enum is marked unsupported;
the recorded labels are set-deduplicated at the end (line 512). -/
def plainNorm (s : JSchema) (path : List String) : ConfigSchemaAnalysis :=
  match s with
  | .mk ty pr it ap en cs ao oo alo nb =>
    let T := computedType (JSchema.mk ty pr it ap en cs ao oo alo nb)
    let newTy := newTypeField T ty
    let es := enumStep en (baseNullable ty nb) (pathLabel path)
    if T = some "object" then
      let pres := normalizePropsOpt pr path
      let apr := normalizeAddProps ap path
      ⟨some (.mk newTy (some pres.1) it apr.1 es.1 cs ao oo alo es.2.1),
        dedupStr (es.2.2 ++ pres.2 ++ apr.2)⟩
    else if T = some "array" then
      let ir := normalizeItems it path
      ⟨some (.mk newTy pr ir.1 ap es.1 cs ao oo alo es.2.1),
        dedupStr (es.2.2 ++ ir.2)⟩
    else if T = some "string" ∨ T = some "number" ∨ T = some "integer"
        ∨ T = some "boolean" then
      ⟨some (.mk newTy pr it ap es.1 cs ao oo alo es.2.1), dedupStr es.2.2⟩
    else if es.1.isSome then
      ⟨some (.mk newTy pr it ap es.1 cs ao oo alo es.2.1), dedupStr es.2.2⟩
    else
      ⟨some (.mk newTy pr it ap es.1 cs ao oo alo es.2.1),
        dedupStr (es.2.2 ++ [pathLabel path])⟩
termination_by (sizeOf s, 3)
decreasing_by
  all_goals
    apply Prod.Lex.left
    first
      | (simp [JSchema.mk.sizeOf_spec]
         omega)
      | simp [JSchema.mk.sizeOf_spec]

/-- The properties step of the object branch: a missing properties record
behaves as an empty one (part_002 line 463). -/
def normalizePropsOpt (pr : Option (List (String × JSchema)))
    (path : List String) : List (String × JSchema) × List String :=
  match pr with
  | some pl => normProps pl path
  | none => ([], [])
termination_by (sizeOf pr, 1)
decreasing_by
  all_goals
    apply Prod.Lex.left
    first
      | (simp
         omega)
      | simp

/-- The additionalProperties step of the object branch (part_002 lines
472-485): `true` marks the node itself unsupported, `false` and absence pass
through, and a schema is normalized under the wildcard segment, marking the
node when the child has any unsupported path. The first component is the new
additionalProperties field, the second the labels to record. -/
def normalizeAddProps (ap : Option (Bool ⊕ JSchema)) (path : List String) :
    Option (Bool ⊕ JSchema) × List String :=
  match ap with
  | some (Sum.inl true) => (some (Sum.inl true), [pathLabel path])
  | some (Sum.inl false) => (some (Sum.inl false), [])
  | some (Sum.inr sub) =>
    let r := normalizeSchemaNode sub (path ++ ["*"])
    (some (Sum.inr (r.schema.getD sub)),
      if r.unsupportedPaths = [] then [] else [pathLabel path])
  | none => (none, [])
termination_by (sizeOf ap, 1)
decreasing_by
  all_goals
    apply Prod.Lex.left
    first
      | (simp
         omega)
      | simp

/-- The items step of the array branch (part_002 lines 486-498): the single
item schema — the first of a declared list — is normalized under the
wildcard segment, the node being marked when the child has any unsupported
path; a missing item schema marks the node and leaves items untouched. The
first component is the new items field, the second the labels to record. -/
def normalizeItems (it : Option (JSchema ⊕ List JSchema))
    (path : List String) : Option (JSchema ⊕ List JSchema) × List String :=
  match it with
  | some (Sum.inl sub) =>
    let r := normalizeSchemaNode sub (path ++ ["*"])
    (some (Sum.inl (r.schema.getD sub)),
      if r.unsupportedPaths = [] then [] else [pathLabel path])
  | some (Sum.inr (sub :: tail)) =>
    let r := normalizeSchemaNode sub (path ++ ["*"])
    (some (Sum.inl (r.schema.getD sub)),
      if r.unsupportedPaths = [] then [] else [pathLabel path])
  | some (Sum.inr []) => (some (Sum.inr []), [pathLabel path])
  | none => (none, [pathLabel path])
termination_by (sizeOf it, 1)
decreasing_by
  all_goals
    apply Prod.Lex.left
    first
      | (simp
         omega)
      | simp

/-- Model of `normalizeUnion` (part_002 lines 516-577): partition the
variants; with at least one literal value and no non-literal variant,
collapse to a single enum node; otherwise hand the non-literal variants to
`unionSingle`. -/
def normalizeUnion (s : JSchema) (variants : List JSchema)
    (path : List String) : Option ConfigSchemaAnalysis :=
  let p := partitionVariants variants
  if 0 < p.1.length ∧ p.2.1.length = 0 then
    some ⟨some (collapseUnion s p.1 p.2.2), []⟩
  else
    unionSingle p.2.1 path
termination_by (sizeOf variants, 2)
decreasing_by
  all_goals
    rcases lt_or_eq_of_le (sizeOf_nonLit_le variants) with hlt | heq
    · exact Prod.Lex.left _ _ hlt
    · exact heq ▸ Prod.Lex.right _ (by omega)

/-- The non-collapse outcomes of `normalizeUnion` (part_002 lines 568-576):
exactly one non-literal variant is normalized with nullable forced; any
other shape fails. -/
def unionSingle : List JSchema → List String → Option ConfigSchemaAnalysis
  | [v], path =>
    let r := normalizeSchemaNode v path
    some
      (match r.schema with
       | some t => ⟨some (setNullableTrue t), r.unsupportedPaths⟩
       | none => r)
  | _, _ => none
termination_by nl _ => (sizeOf nl, 1)
decreasing_by
  all_goals
    apply Prod.Lex.left
    first
      | (simp
         omega)
      | simp

/-- The property loop of the object branch (part_002 lines 463-469): each
declared property is normalized under its extended path; a normalized child
schema is kept under its key and every child unsupported path is
collected. -/
def normProps : List (String × JSchema) → List String →
    List (String × JSchema) × List String
  | [], _ => ([], [])
  | (k, c) :: rest, path =>
    let r := normalizeSchemaNode c (path ++ [k])
    let tail := normProps rest path
    match r.schema with
    | some t => ((k, t) :: tail.1, r.unsupportedPaths ++ tail.2)
    | none => (tail.1, r.unsupportedPaths ++ tail.2)
termination_by l _ => (sizeOf l, 2)
decreasing_by
  all_goals
    apply Prod.Lex.left
    first
      | (simp
         omega)
      | simp
end

/-- Model of `analyzeConfigSchema` (part_002 lines 420-426): `none` stands
for a raw schema that is absent or not object-shaped, which yields a null
schema and the unsupported root marker. -/
def analyzeConfigSchema : Option JSchema → ConfigSchemaAnalysis
  | none => ⟨none, ["<root>"]⟩
  | some s => normalizeSchemaNode s []

theorem node_eq_plain (s : JSchema) (path : List String)
    (h : unionVariants s = none) :
    normalizeSchemaNode s path = plainNorm s path := by
  simp only [normalizeSchemaNode]
  split
  · simp_all
  · rfl

theorem node_eq_union (s : JSchema) (vs : List JSchema) (path : List String)
    (h : unionVariants s = some vs) :
    normalizeSchemaNode s path
      = (match normalizeUnion s vs path with
         | some result => result
         | none => ⟨some s, [pathLabel path]⟩) := by
  simp only [normalizeSchemaNode]
  split
  · rename_i variants heq
    rw [heq] at h
    cases h
    rfl
  · simp_all

/-- A leaf schema of an unclassifiable type; its normalization records its
own path. -/
def frobSchema : JSchema :=
  .mk (some (.inl "frob")) none none none none none none none none none

/-- A literal variant `const: "a"`. -/
def constASchema : JSchema :=
  .mk none none none none none (some (.str "a")) none none none none

/-- A schema carrying both a literal union (anyOf of one const) and a
declared property whose sub-schema is unsupported. Union collapse keeps the
properties field but never visits it. -/
def unionWithProps : JSchema :=
  .mk none (some [("x", frobSchema)]) none none none none
    (some [constASchema]) none none none

theorem frobSchema_norm :
    normalizeSchemaNode frobSchema ["x"] = ⟨some frobSchema, ["x"]⟩ := by
  rw [node_eq_plain frobSchema ["x"] rfl]
  simp only [frobSchema, plainNorm]
  simp [computedType, schemaType, typeHasNull, enumStep, addPropsTruthy,
    baseNullable, newTypeField, pathLabel, pathKey, dedupStr,
    normalizePropsOpt, normalizeAddProps, normalizeItems, normProps]
  decide

theorem unionWithProps_norm :
    normalizeSchemaNode unionWithProps []
      = ⟨some (.mk none (some [("x", frobSchema)]) none none
          (some [.str "a"]) none none none none (some false)), []⟩ := by
  rw [node_eq_union unionWithProps [constASchema] [] rfl]
  simp [normalizeUnion, partitionVariants, constASchema, collapseUnion,
    normalizeEnumValues, dedupLits, pushUniqueLit, isNulLit, unionSingle,
    unionWithProps]

theorem unionWithProps_renorm :
    (normalizeSchemaNode (.mk none (some [("x", frobSchema)]) none none
        (some [.str "a"]) none none none none (some false)) []).unsupportedPaths
      = ["x"] := by
  have hprops : normProps [("x", frobSchema)] [] = ([("x", frobSchema)], ["x"]) := by
    simp [normProps, frobSchema_norm]
  rw [node_eq_plain (.mk none (some [("x", frobSchema)]) none none
      (some [.str "a"]) none none none none (some false)) [] rfl]
  simp only [plainNorm]
  simp [computedType, schemaType, typeHasNull, enumStep, addPropsTruthy,
    baseNullable, newTypeField, normalizePropsOpt, hprops,
    normalizeEnumValues, dedupLits, pushUniqueLit, isNulLit,
    normalizeAddProps, pathLabel, pathKey, dedupStr]

/-- C6 counterexample: normalization is not idempotent on the unsupported
path set. The schema `unionWithProps` carries a collapsible literal union
together with a declared property whose sub-schema is unsupported: the first
run collapses the union and returns no unsupported paths, never visiting the
properties; the collapsed output no longer carries a union, so the second
run enters the object branch (the properties make the computed type
"object") and records the property path "x". -/
theorem normalize_not_idempotent_counterexample :
    (analyzeConfigSchema (some unionWithProps)).unsupportedPaths = []
    ∧ (analyzeConfigSchema
        (analyzeConfigSchema (some unionWithProps)).schema).unsupportedPaths
      = ["x"]
    ∧ ¬(∀ p, p ∈ (analyzeConfigSchema
          (analyzeConfigSchema (some unionWithProps)).schema).unsupportedPaths
        ↔ p ∈ (analyzeConfigSchema (some unionWithProps)).unsupportedPaths) := by
  have h1 : analyzeConfigSchema (some unionWithProps)
      = ⟨some (.mk none (some [("x", frobSchema)]) none none
          (some [.str "a"]) none none none none (some false)), []⟩ := by
    simp [analyzeConfigSchema, unionWithProps_norm]
  refine ⟨by rw [h1], ?_, ?_⟩
  · rw [h1]
    exact unionWithProps_renorm
  · intro hall
    have h2 : (analyzeConfigSchema
        (analyzeConfigSchema (some unionWithProps)).schema).unsupportedPaths
        = ["x"] := by
      rw [h1]
      exact unionWithProps_renorm
    have hx := (hall "x").mp (by rw [h2]; exact List.mem_cons_self _ _)
    rw [h1] at hx
    simp at hx

/-- A union variant the partition classifies as literal or null: an enum
array, a present const, or a null-typed variant (part_002 lines 527-546). -/
def isLiteralOrNullVariant (v : JSchema) : Bool :=
  match v with
  | .mk _ _ _ _ (some _) _ _ _ _ _ => true
  | .mk _ _ _ _ none (some _) _ _ _ _ => true
  | _ => decide (schemaType v = some "null")

/-- A variant the partition adds to the non-literal list. -/
def nonLiteralVariant (v : JSchema) : Bool := !(isLiteralOrNullVariant v)

/-- The literal values a union collects, in traversal order: each enum
variant contributes its stripped per-variant deduplicated values, each
non-null const its value. -/
def collectLits : List JSchema → List JLit
  | [] => []
  | JSchema.mk _ _ _ _ (some l) _ _ _ _ _ :: rest =>
    (normalizeEnumValues l).1 ++ collectLits rest
  | JSchema.mk _ _ _ _ none (some c) _ _ _ _ :: rest =>
    (if isNulLit c then [] else [c]) ++ collectLits rest
  | _ :: rest => collectLits rest

/-- Whether any variant contributes nullability: a null among an enum
variant's values, a null const, or a null-typed variant. -/
def unionHasNull : List JSchema → Bool
  | [] => false
  | JSchema.mk _ _ _ _ (some l) _ _ _ _ _ :: rest =>
    (normalizeEnumValues l).2 || unionHasNull rest
  | JSchema.mk _ _ _ _ none (some c) _ _ _ _ :: rest =>
    isNulLit c || unionHasNull rest
  | v :: rest => decide (schemaType v = some "null") || unionHasNull rest

theorem partition_values_eq (l : List JSchema) :
    (partitionVariants l).1 = collectLits l := by
  induction l with
  | nil => rfl
  | cons a rest ih =>
    cases a with
    | mk ty pr it ap en cs ao oo alo nb =>
      cases en with
      | some el => simp [partitionVariants, collectLits, ih]
      | none =>
        cases cs with
        | some c =>
          by_cases hc : isNulLit c = true <;>
            simp [partitionVariants, collectLits, hc, ih]
        | none =>
          by_cases ht : schemaType (JSchema.mk ty pr it ap none none ao oo alo nb)
              = some "null" <;>
            simp [partitionVariants, collectLits, ht, ih]

theorem partition_nullable_eq (l : List JSchema) :
    (partitionVariants l).2.2 = unionHasNull l := by
  induction l with
  | nil => rfl
  | cons a rest ih =>
    cases a with
    | mk ty pr it ap en cs ao oo alo nb =>
      cases en with
      | some el => simp [partitionVariants, unionHasNull, ih]
      | none =>
        cases cs with
        | some c =>
          by_cases hc : isNulLit c = true <;>
            simp [partitionVariants, unionHasNull, hc, ih]
        | none =>
          by_cases ht : schemaType (JSchema.mk ty pr it ap none none ao oo alo nb)
              = some "null" <;>
            simp [partitionVariants, unionHasNull, ht, ih]

theorem partition_nonLit_eq (l : List JSchema) :
    (partitionVariants l).2.1 = l.filter nonLiteralVariant := by
  induction l with
  | nil => rfl
  | cons a rest ih =>
    cases a with
    | mk ty pr it ap en cs ao oo alo nb =>
      cases en with
      | some el =>
        simp [partitionVariants, List.filter, nonLiteralVariant,
          isLiteralOrNullVariant, ih]
      | none =>
        cases cs with
        | some c =>
          by_cases hc : isNulLit c = true <;>
            simp [partitionVariants, List.filter, nonLiteralVariant,
              isLiteralOrNullVariant, hc, ih]
        | none =>
          by_cases ht : schemaType (JSchema.mk ty pr it ap none none ao oo alo nb)
              = some "null"
          · simp [partitionVariants, List.filter, nonLiteralVariant,
              isLiteralOrNullVariant, ht, ih]
          · simp [partitionVariants, List.filter, nonLiteralVariant,
              isLiteralOrNullVariant, ht, ih]

theorem unionSingle_eq_none (l : List JSchema) (path : List String)
    (h : l.length ≠ 1) : unionSingle l path = none := by
  match l with
  | [] => simp [unionSingle]
  | [v] => simp at h
  | a :: b :: t => simp [unionSingle]

/-- C3 amended: a union whose variants are all enum/const literals or null
variants, and whose collected literal values are not all null (at least one
non-null literal value remains), collapses to a single enum node: the
original node with its enum replaced by the union of the literal values,
deduplicated by value identity and stripped of null; nullable is set exactly
when a null variant or null literal was present; the union fields are
cleared and no path is recorded as unsupported. (An all-null or value-less
literal union is instead marked unsupported, see the counterexample.) -/
theorem normalizeUnion_literal_collapse (s : JSchema) (vs : List JSchema)
    (path : List String) (hv : unionVariants s = some vs)
    (hlit : ∀ v ∈ vs, isLiteralOrNullVariant v = true)
    (hne : collectLits vs ≠ []) :
    normalizeSchemaNode s path
      = ⟨some (collapseUnion s (collectLits vs) (unionHasNull vs)), []⟩ := by
  have hnl : (partitionVariants vs).2.1 = [] := by
    rw [partition_nonLit_eq]
    rw [List.filter_eq_nil]
    intro v hvmem
    simp [nonLiteralVariant, hlit v hvmem]
  have hvals := partition_values_eq vs
  have hnb := partition_nullable_eq vs
  rw [node_eq_union s vs path hv]
  have hcond : 0 < (partitionVariants vs).1.length
      ∧ (partitionVariants vs).2.1.length = 0 := by
    constructor
    · rw [hvals]
      exact List.length_pos.mpr hne
    · rw [hnl]
      rfl
  have hnu : normalizeUnion s vs path
      = some ⟨some (collapseUnion s (collectLits vs) (unionHasNull vs)), []⟩ := by
    simp only [normalizeUnion]
    rw [if_pos hcond, hvals, hnb]
  rw [hnu]

/-- A literal variant `enum: [null]`: an enum whose only value is null. -/
def allNullEnumVariant : JSchema :=
  .mk none none none none (some [.nul]) none none none none none

/-- The union `anyOf: [x7b enum: [null] x7d]`: every variant is an enum
literal, but the stripped value union is empty. -/
def allNullUnion : JSchema :=
  .mk none none none none none none (some [allNullEnumVariant]) none none none

/-- C3 counterexample: a union whose only variant is the enum literal
`enum: [null]` satisfies the claim premise (every variant is an enum/const
literal), yet normalization does not produce an enum node: the collapse
requires at least one collected value, so the node is passed through
unmodified — its anyOf intact — and its path is recorded as unsupported. -/
theorem literal_union_allNull_counterexample :
    (∀ v ∈ [allNullEnumVariant], isLiteralOrNullVariant v = true)
    ∧ unionVariants allNullUnion = some [allNullEnumVariant]
    ∧ normalizeSchemaNode allNullUnion [] = ⟨some allNullUnion, ["<root>"]⟩ := by
  refine ⟨?_, rfl, ?_⟩
  · intro v hv
    simp at hv
    rw [hv]
    rfl
  · rw [node_eq_union allNullUnion [allNullEnumVariant] [] rfl]
    simp [normalizeUnion, partitionVariants, allNullEnumVariant,
      normalizeEnumValues, isNulLit, dedupLits, pushUniqueLit, unionSingle,
      pathLabel, pathKey]
    decide

/-- A null-typed variant, `type: "null"`. -/
def nullTypeVariant : JSchema :=
  .mk (some (.inl "null")) none none none none none none none none none

/-- The union `anyOf: [const "a", const "a", type "null"]`. -/
def litUnion : JSchema :=
  .mk none none none none none none
    (some [constASchema, constASchema, nullTypeVariant]) none none none

theorem normalizeUnion_literal_collapse_witness :
    unionVariants litUnion = some [constASchema, constASchema, nullTypeVariant]
    ∧ (∀ v ∈ [constASchema, constASchema, nullTypeVariant],
        isLiteralOrNullVariant v = true)
    ∧ collectLits [constASchema, constASchema, nullTypeVariant] ≠ []
    ∧ normalizeSchemaNode litUnion []
      = ⟨some (collapseUnion litUnion
          (collectLits [constASchema, constASchema, nullTypeVariant])
          (unionHasNull [constASchema, constASchema, nullTypeVariant])), []⟩ :=
  ⟨rfl, by decide, by decide,
    normalizeUnion_literal_collapse litUnion
      [constASchema, constASchema, nullTypeVariant] [] rfl (by decide)
      (by decide)⟩

/-- C4: a union with two or more non-literal variants fails normalization:
the node is passed through unmodified (the same node, unions intact) and its
path label is recorded in the unsupported-path set. -/
theorem normalizeUnion_nonliteral_unsupported (s : JSchema)
    (vs : List JSchema) (path : List String) (hv : unionVariants s = some vs)
    (h2 : 2 ≤ (vs.filter nonLiteralVariant).length) :
    normalizeSchemaNode s path = ⟨some s, [pathLabel path]⟩ := by
  have hnl := partition_nonLit_eq vs
  have hnone : normalizeUnion s vs path = none := by
    simp only [normalizeUnion]
    rw [if_neg]
    · apply unionSingle_eq_none
      rw [hnl]
      omega
    · intro hcond
      rw [hnl] at hcond
      omega
  rw [node_eq_union s vs path hv, hnone]

/-- A non-literal object-typed variant. -/
def objVariantA : JSchema :=
  .mk (some (.inl "object")) none none none none none none none none none

/-- A second non-literal variant of string type. -/
def strVariantB : JSchema :=
  .mk (some (.inl "string")) none none none none none none none none none

/-- The union `anyOf: [type "object", type "string"]`. -/
def twoNonLitUnion : JSchema :=
  .mk none none none none none none (some [objVariantA, strVariantB]) none
    none none

theorem normalizeUnion_nonliteral_unsupported_witness :
    unionVariants twoNonLitUnion = some [objVariantA, strVariantB]
    ∧ 2 ≤ ([objVariantA, strVariantB].filter nonLiteralVariant).length
    ∧ normalizeSchemaNode twoNonLitUnion ["a"]
      = ⟨some twoNonLitUnion, [pathLabel ["a"]]⟩ :=
  ⟨rfl, by decide,
    normalizeUnion_nonliteral_unsupported twoNonLitUnion
      [objVariantA, strVariantB] ["a"] rfl (by decide)⟩

theorem foldl_pushUniqueLit_mem (l : List JLit) :
    ∀ (acc : List JLit) (x : JLit), x ∈ l.foldl pushUniqueLit acc →
      x ∈ acc ∨ x ∈ l := by
  induction l with
  | nil =>
    intro acc x h
    exact Or.inl (by simpa using h)
  | cons a rest ih =>
    intro acc x h
    rcases ih (pushUniqueLit acc a) x (by simpa using h) with h1 | h2
    · by_cases ha : a ∈ acc
      · rw [pushUniqueLit, if_pos ha] at h1
        exact Or.inl h1
      · rw [pushUniqueLit, if_neg ha] at h1
        rcases List.mem_append.mp h1 with h3 | h4
        · exact Or.inl h3
        · simp at h4
          exact Or.inr (h4 ▸ List.mem_cons_self _ _)
    · exact Or.inr (List.mem_cons_of_mem _ h2)

theorem mem_dedupLits (l : List JLit) (x : JLit) (h : x ∈ dedupLits l) :
    x ∈ l := by
  rcases foldl_pushUniqueLit_mem l [] x h with h1 | h2
  · simp at h1
  · exact h2

theorem foldl_pushUniqueLit_nodup (l : List JLit) :
    ∀ acc : List JLit, acc.Nodup → (l.foldl pushUniqueLit acc).Nodup := by
  induction l with
  | nil =>
    intro acc h
    simpa using h
  | cons a rest ih =>
    intro acc h
    have hstep : (pushUniqueLit acc a).Nodup := by
      by_cases ha : a ∈ acc
      · rw [pushUniqueLit, if_pos ha]
        exact h
      · rw [pushUniqueLit, if_neg ha]
        refine List.nodup_append.mpr ⟨h, by simp, ?_⟩
        intro x hx hxa
        simp at hxa
        exact ha (hxa ▸ hx)
    have hres := ih (pushUniqueLit acc a) hstep
    simpa using hres

theorem foldl_pushUniqueLit_fresh (l : List JLit) :
    ∀ acc : List JLit, l.Nodup → (∀ x ∈ l, x ∉ acc) →
      l.foldl pushUniqueLit acc = acc ++ l := by
  induction l with
  | nil =>
    intro acc _ _
    simp
  | cons a rest ih =>
    intro acc hnd hfresh
    have ha : a ∉ acc := hfresh a (List.mem_cons_self _ _)
    have step : pushUniqueLit acc a = acc ++ [a] := by
      rw [pushUniqueLit, if_neg ha]
    have hnd' := (List.nodup_cons.mp hnd).2
    have hna := (List.nodup_cons.mp hnd).1
    have hfresh' : ∀ x ∈ rest, x ∉ acc ++ [a] := by
      intro x hx hmem
      rcases List.mem_append.mp hmem with h1 | h2
      · exact hfresh x (List.mem_cons_of_mem _ hx) h1
      · simp at h2
        exact hna (h2 ▸ hx)
    calc (a :: rest).foldl pushUniqueLit acc
        = rest.foldl pushUniqueLit (acc ++ [a]) := by
          simp [step]
      _ = (acc ++ [a]) ++ rest := ih (acc ++ [a]) hnd' hfresh'
      _ = acc ++ a :: rest := by simp

theorem dedupLits_nodup (l : List JLit) : (dedupLits l).Nodup :=
  foldl_pushUniqueLit_nodup l [] (by simp)

theorem dedupLits_of_nodup (l : List JLit) (h : l.Nodup) : dedupLits l = l := by
  have := foldl_pushUniqueLit_fresh l [] h (by simp)
  simpa [dedupLits] using this

theorem normalizeEnumValues_stable (l : List JLit) :
    normalizeEnumValues (normalizeEnumValues l).1
      = ((normalizeEnumValues l).1, false) := by
  have hfilter : (normalizeEnumValues l).1.filter (fun v => !(isNulLit v))
      = (normalizeEnumValues l).1 := by
    refine List.filter_eq_self.mpr ?_
    intro x hx
    simp only [normalizeEnumValues] at hx
    exact (List.mem_filter.mp (mem_dedupLits _ x hx)).2
  have hnodup : (normalizeEnumValues l).1.Nodup := by
    simp only [normalizeEnumValues]
    exact dedupLits_nodup _
  simp only [normalizeEnumValues, hfilter] at *
  rw [dedupLits_of_nodup _ hnodup]
  simp

theorem enumStep_stable (en : Option (List JLit)) (nul0 nul0' : Option Bool)
    (label : String) :
    (enumStep (enumStep en nul0 label).1 nul0' label).1
        = (enumStep en nul0 label).1
    ∧ (enumStep (enumStep en nul0 label).1 nul0' label).2.2
        = (enumStep en nul0 label).2.2 := by
  cases en with
  | none => exact ⟨rfl, rfl⟩
  | some l =>
    simp only [enumStep, normalizeEnumValues_stable]
    exact ⟨trivial, trivial⟩

mutual
/-- Absence of anyOf, oneOf and allOf everywhere in a schema tree (the
hypothesis of the amended idempotence claim). -/
def unionFree (s : JSchema) : Bool :=
  match s with
  | .mk _ pr it ap _ _ ao oo alo _ =>
    ao.isNone && oo.isNone && alo.isNone
    && unionFreePropsOpt pr && unionFreeItems it && unionFreeAddProps ap
termination_by sizeOf s
decreasing_by
  all_goals first
    | (simp [JSchema.mk.sizeOf_spec]
       omega)
    | simp [JSchema.mk.sizeOf_spec]

/-- Union-freeness of an optional properties record. -/
def unionFreePropsOpt : Option (List (String × JSchema)) → Bool
  | some pl => unionFreeProps pl
  | none => true
termination_by pr => sizeOf pr
decreasing_by
  all_goals first
    | (simp [JSchema.mk.sizeOf_spec]
       omega)
    | simp [JSchema.mk.sizeOf_spec]

/-- Union-freeness of every property sub-schema. -/
def unionFreeProps : List (String × JSchema) → Bool
  | [] => true
  | (_, c) :: rest => unionFree c && unionFreeProps rest
termination_by pl => sizeOf pl
decreasing_by
  all_goals first
    | (simp [JSchema.mk.sizeOf_spec]
       omega)
    | simp [JSchema.mk.sizeOf_spec]

/-- Union-freeness of the items field. -/
def unionFreeItems : Option (JSchema ⊕ List JSchema) → Bool
  | some (Sum.inl x) => unionFree x
  | some (Sum.inr l) => unionFreeList l
  | none => true
termination_by it => sizeOf it
decreasing_by
  all_goals first
    | (simp [JSchema.mk.sizeOf_spec]
       omega)
    | simp [JSchema.mk.sizeOf_spec]

/-- Union-freeness of every schema in a list. -/
def unionFreeList : List JSchema → Bool
  | [] => true
  | x :: rest => unionFree x && unionFreeList rest
termination_by l => sizeOf l
decreasing_by
  all_goals first
    | (simp [JSchema.mk.sizeOf_spec]
       omega)
    | simp [JSchema.mk.sizeOf_spec]

/-- Union-freeness of the additionalProperties field. -/
def unionFreeAddProps : Option (Bool ⊕ JSchema) → Bool
  | some (Sum.inr x) => unionFree x
  | _ => true
termination_by ap => sizeOf ap
decreasing_by
  all_goals first
    | (simp [JSchema.mk.sizeOf_spec]
       omega)
    | simp [JSchema.mk.sizeOf_spec]
end

theorem plainNorm_object (ty : Option (String ⊕ List String))
    (pr : Option (List (String × JSchema))) (it : Option (JSchema ⊕ List JSchema))
    (ap : Option (Bool ⊕ JSchema)) (en : Option (List JLit)) (cs : Option JLit)
    (nb : Option Bool) (path : List String)
    (hT : computedType (.mk ty pr it ap en cs none none none nb) = some "object") :
    plainNorm (.mk ty pr it ap en cs none none none nb) path
      = ⟨some (.mk (some (Sum.inl "object")) (some (normalizePropsOpt pr path).1)
            it (normalizeAddProps ap path).1
            (enumStep en (baseNullable ty nb) (pathLabel path)).1 cs none none none
            (enumStep en (baseNullable ty nb) (pathLabel path)).2.1),
          dedupStr ((enumStep en (baseNullable ty nb) (pathLabel path)).2.2
            ++ (normalizePropsOpt pr path).2 ++ (normalizeAddProps ap path).2)⟩ := by
  simp only [plainNorm, hT, newTypeField]
  simp

theorem plainNorm_array (ty : Option (String ⊕ List String))
    (pr : Option (List (String × JSchema))) (it : Option (JSchema ⊕ List JSchema))
    (ap : Option (Bool ⊕ JSchema)) (en : Option (List JLit)) (cs : Option JLit)
    (nb : Option Bool) (path : List String)
    (hT : computedType (.mk ty pr it ap en cs none none none nb) = some "array") :
    plainNorm (.mk ty pr it ap en cs none none none nb) path
      = ⟨some (.mk (some (Sum.inl "array")) pr (normalizeItems it path).1 ap
            (enumStep en (baseNullable ty nb) (pathLabel path)).1 cs none none none
            (enumStep en (baseNullable ty nb) (pathLabel path)).2.1),
          dedupStr ((enumStep en (baseNullable ty nb) (pathLabel path)).2.2
            ++ (normalizeItems it path).2)⟩ := by
  simp only [plainNorm, hT, newTypeField]
  simp

theorem plainNorm_scalar (ty : Option (String ⊕ List String))
    (pr : Option (List (String × JSchema))) (it : Option (JSchema ⊕ List JSchema))
    (ap : Option (Bool ⊕ JSchema)) (en : Option (List JLit)) (cs : Option JLit)
    (nb : Option Bool) (path : List String) (tn : String)
    (hT : computedType (.mk ty pr it ap en cs none none none nb) = some tn)
    (htn : tn = "string" ∨ tn = "number" ∨ tn = "integer" ∨ tn = "boolean") :
    plainNorm (.mk ty pr it ap en cs none none none nb) path
      = ⟨some (.mk (some (Sum.inl tn)) pr it ap
            (enumStep en (baseNullable ty nb) (pathLabel path)).1 cs none none none
            (enumStep en (baseNullable ty nb) (pathLabel path)).2.1),
          dedupStr (enumStep en (baseNullable ty nb) (pathLabel path)).2.2⟩ := by
  rcases htn with h | h | h | h <;> subst h <;>
    (simp only [plainNorm, hT, newTypeField]; simp)

theorem plainNorm_other (ty : Option (String ⊕ List String))
    (pr : Option (List (String × JSchema))) (it : Option (JSchema ⊕ List JSchema))
    (ap : Option (Bool ⊕ JSchema)) (en : Option (List JLit)) (cs : Option JLit)
    (nb : Option Bool) (path : List String)
    (h1 : computedType (.mk ty pr it ap en cs none none none nb) ≠ some "object")
    (h2 : computedType (.mk ty pr it ap en cs none none none nb) ≠ some "array")
    (h3 : ¬(computedType (.mk ty pr it ap en cs none none none nb) = some "string"
      ∨ computedType (.mk ty pr it ap en cs none none none nb) = some "number"
      ∨ computedType (.mk ty pr it ap en cs none none none nb) = some "integer"
      ∨ computedType (.mk ty pr it ap en cs none none none nb) = some "boolean")) :
    plainNorm (.mk ty pr it ap en cs none none none nb) path
      = ⟨some (.mk (newTypeField
              (computedType (.mk ty pr it ap en cs none none none nb)) ty) pr it ap
            (enumStep en (baseNullable ty nb) (pathLabel path)).1 cs none none none
            (enumStep en (baseNullable ty nb) (pathLabel path)).2.1),
          dedupStr ((enumStep en (baseNullable ty nb) (pathLabel path)).2.2
            ++ (if (enumStep en (baseNullable ty nb) (pathLabel path)).1.isSome
                then [] else [pathLabel path]))⟩ := by
  simp only [plainNorm]
  rw [if_neg h1, if_neg h2, if_neg h3]
  by_cases h4 : (enumStep en (baseNullable ty nb) (pathLabel path)).1.isSome = true
  · rw [if_pos h4]
    simp [h4]
  · rw [if_neg h4]
    simp [h4]

theorem computedType_inl (tn : String) (pr : Option (List (String × JSchema)))
    (it : Option (JSchema ⊕ List JSchema)) (ap : Option (Bool ⊕ JSchema))
    (en : Option (List JLit)) (cs : Option JLit) (nb : Option Bool) :
    computedType (.mk (some (Sum.inl tn)) pr it ap en cs none none none nb)
      = some tn := by
  simp [computedType, schemaType]

theorem computedType_congr (ty : Option (String ⊕ List String))
    (pr : Option (List (String × JSchema)))
    (it it' : Option (JSchema ⊕ List JSchema)) (ap : Option (Bool ⊕ JSchema))
    (en en' : Option (List JLit)) (cs cs' : Option JLit) (nb nb' : Option Bool) :
    computedType (.mk ty pr it ap en cs none none none nb)
      = computedType (.mk ty pr it' ap en' cs' none none none nb') := by
  simp [computedType, schemaType]

theorem computedType_newTypeField (ty : Option (String ⊕ List String))
    (pr : Option (List (String × JSchema)))
    (it it' : Option (JSchema ⊕ List JSchema)) (ap : Option (Bool ⊕ JSchema))
    (en en' : Option (List JLit)) (cs cs' : Option JLit) (nb nb' : Option Bool) :
    computedType (.mk (newTypeField
        (computedType (.mk ty pr it ap en cs none none none nb)) ty)
        pr it' ap en' cs' none none none nb')
      = computedType (.mk ty pr it ap en cs none none none nb) := by
  cases h : computedType (JSchema.mk ty pr it ap en cs none none none nb) with
  | some t =>
    rw [newTypeField]
    exact computedType_inl t pr it' ap en' cs' nb'
  | none =>
    rw [newTypeField]
    rw [computedType_congr ty pr it' it ap en' en cs' cs nb' nb]
    exact h

theorem normProps_cons_snd (k : String) (c : JSchema)
    (rest : List (String × JSchema)) (path : List String) :
    (normProps ((k, c) :: rest) path).2
      = (normalizeSchemaNode c (path ++ [k])).unsupportedPaths
        ++ (normProps rest path).2 := by
  simp only [normProps]
  split <;> rfl

/-- Idempotence statement for one node: a union-free schema normalizes to a
union-free schema whose renormalization yields the same unsupported-path
list. -/
def NodeIdem (s : JSchema) (path : List String) : Prop :=
  unionFree s = true →
    ∃ t u, normalizeSchemaNode s path = ⟨some t, u⟩ ∧ unionFree t = true
      ∧ (normalizeSchemaNode t path).unsupportedPaths = u

/-- Idempotence statement for a property list. -/
def PropsIdem (pl : List (String × JSchema)) (path : List String) : Prop :=
  unionFreeProps pl = true →
    unionFreeProps (normProps pl path).1 = true
    ∧ (normProps (normProps pl path).1 path).2 = (normProps pl path).2

/-- Idempotence statement for an optional property record. -/
def PropsOptIdem (pr : Option (List (String × JSchema)))
    (path : List String) : Prop :=
  unionFreePropsOpt pr = true →
    unionFreeProps (normalizePropsOpt pr path).1 = true
    ∧ (normProps (normalizePropsOpt pr path).1 path).2
        = (normalizePropsOpt pr path).2

/-- Idempotence statement for the additionalProperties field. -/
def AddPropsIdem (ap : Option (Bool ⊕ JSchema)) (path : List String) : Prop :=
  unionFreeAddProps ap = true →
    unionFreeAddProps (normalizeAddProps ap path).1 = true
    ∧ (normalizeAddProps (normalizeAddProps ap path).1 path).2
        = (normalizeAddProps ap path).2

/-- Idempotence statement for the items field. -/
def ItemsIdem (ii : Option (JSchema ⊕ List JSchema))
    (path : List String) : Prop :=
  unionFreeItems ii = true →
    unionFreeItems (normalizeItems ii path).1 = true
    ∧ (normalizeItems (normalizeItems ii path).1 path).2
        = (normalizeItems ii path).2

theorem node_eq_plain_nf (ty : Option (String ⊕ List String))
    (pr : Option (List (String × JSchema))) (it : Option (JSchema ⊕ List JSchema))
    (ap : Option (Bool ⊕ JSchema)) (en : Option (List JLit)) (cs : Option JLit)
    (nb : Option Bool) (path : List String) :
    normalizeSchemaNode (.mk ty pr it ap en cs none none none nb) path
      = plainNorm (.mk ty pr it ap en cs none none none nb) path :=
  node_eq_plain _ _ rfl

theorem idem_all (n : Nat) :
    (∀ s path, sizeOf s ≤ n → NodeIdem s path)
    ∧ (∀ pl path, sizeOf pl ≤ n → PropsIdem pl path)
    ∧ (∀ pr path, sizeOf pr ≤ n → PropsOptIdem pr path)
    ∧ (∀ ap path, sizeOf ap ≤ n → AddPropsIdem ap path)
    ∧ (∀ ii path, sizeOf ii ≤ n → ItemsIdem ii path) := by
  induction n using Nat.strong_induction_on with
  | _ n ih =>
    refine ⟨?_, ?_, ?_, ?_, ?_⟩
    -- NodeIdem
    · intro s path hsz hfree
      obtain ⟨ty, pr, it, ap, en, cs, ao, oo, alo, nb⟩ := s
      simp only [unionFree, Bool.and_eq_true, Option.isNone_iff_eq_none]
        at hfree
      obtain ⟨⟨⟨⟨⟨hao, hoo⟩, halo⟩, hpr⟩, hit⟩, hap⟩ := hfree
      subst hao
      subst hoo
      subst halo
      have hszpr : sizeOf pr < n := by
        have h := JSchema.mk.sizeOf_spec ty pr it ap en cs none none none nb
        omega
      have hszap : sizeOf ap < n := by
        have h := JSchema.mk.sizeOf_spec ty pr it ap en cs none none none nb
        omega
      have hszit : sizeOf it < n := by
        have h := JSchema.mk.sizeOf_spec ty pr it ap en cs none none none nb
        omega
      obtain ⟨hfp, hp2⟩ := (ih (sizeOf pr) hszpr).2.2.1 pr path le_rfl hpr
      obtain ⟨hfa, ha2⟩ := (ih (sizeOf ap) hszap).2.2.2.1 ap path le_rfl hap
      obtain ⟨hfi, hi2⟩ := (ih (sizeOf it) hszit).2.2.2.2 it path le_rfl hit
      rw [node_eq_plain_nf]
      by_cases hobj : computedType (.mk ty pr it ap en cs none none none nb)
          = some "object"
      · rw [plainNorm_object ty pr it ap en cs nb path hobj]
        refine ⟨_, _, rfl, ?_, ?_⟩
        · simp [unionFree, unionFreePropsOpt, hfp, hit, hfa]
        · rw [node_eq_plain_nf]
          rw [plainNorm_object (some (Sum.inl "object"))
            (some (normalizePropsOpt pr path).1) it
            (normalizeAddProps ap path).1
            (enumStep en (baseNullable ty nb) (pathLabel path)).1 cs
            (enumStep en (baseNullable ty nb) (pathLabel path)).2.1 path
            (computedType_inl "object" _ _ _ _ _ _)]
          simp only [normalizePropsOpt]
          rw [(enumStep_stable en (baseNullable ty nb) _ (pathLabel path)).2,
            hp2, ha2]
      · by_cases harr : computedType (.mk ty pr it ap en cs none none none nb)
            = some "array"
        · rw [plainNorm_array ty pr it ap en cs nb path harr]
          refine ⟨_, _, rfl, ?_, ?_⟩
          · simp [unionFree, hpr, hfi, hap]
          · rw [node_eq_plain_nf]
            rw [plainNorm_array (some (Sum.inl "array")) pr
              (normalizeItems it path).1 ap
              (enumStep en (baseNullable ty nb) (pathLabel path)).1 cs
              (enumStep en (baseNullable ty nb) (pathLabel path)).2.1 path
              (computedType_inl "array" _ _ _ _ _ _)]
            rw [(enumStep_stable en (baseNullable ty nb) _ (pathLabel path)).2,
              hi2]
        · by_cases hscal : computedType (.mk ty pr it ap en cs none none none nb)
              = some "string"
            ∨ computedType (.mk ty pr it ap en cs none none none nb)
              = some "number"
            ∨ computedType (.mk ty pr it ap en cs none none none nb)
              = some "integer"
            ∨ computedType (.mk ty pr it ap en cs none none none nb)
              = some "boolean"
          · rcases hscal with h | h | h | h <;>
            · rw [plainNorm_scalar ty pr it ap en cs nb path _ h (by simp)]
              refine ⟨_, _, rfl, ?_, ?_⟩
              · simp [unionFree, hpr, hit, hap]
              · rw [node_eq_plain_nf]
                rw [plainNorm_scalar _ pr it ap
                  (enumStep en (baseNullable ty nb) (pathLabel path)).1 cs
                  (enumStep en (baseNullable ty nb) (pathLabel path)).2.1 path _
                  (computedType_inl _ _ _ _ _ _ _) (by simp)]
                rw [(enumStep_stable en (baseNullable ty nb) _
                  (pathLabel path)).2]
          · rw [plainNorm_other ty pr it ap en cs nb path hobj harr hscal]
            refine ⟨_, _, rfl, ?_, ?_⟩
            · simp [unionFree, hpr, hit, hap]
            · rw [node_eq_plain_nf]
              have hct := computedType_newTypeField ty pr it it ap en
                (enumStep en (baseNullable ty nb) (pathLabel path)).1 cs cs nb
                (enumStep en (baseNullable ty nb) (pathLabel path)).2.1
              rw [plainNorm_other _ pr it ap
                (enumStep en (baseNullable ty nb) (pathLabel path)).1 cs
                (enumStep en (baseNullable ty nb) (pathLabel path)).2.1 path
                (by rw [hct]; exact hobj) (by rw [hct]; exact harr)
                (by rw [hct]; exact hscal)]
              rw [(enumStep_stable en (baseNullable ty nb) _
                (pathLabel path)).1,
                (enumStep_stable en (baseNullable ty nb) _ (pathLabel path)).2]
    -- PropsIdem
    · intro pl path hsz hfree
      cases pl with
      | nil =>
        constructor
        · simp [normProps, unionFreeProps]
        · simp [normProps]
      | cons p rest =>
        obtain ⟨k, c⟩ := p
        simp only [unionFreeProps, Bool.and_eq_true] at hfree
        have hszc : sizeOf c < n := by
          have h1 := List.cons.sizeOf_spec (k, c) rest
          have h2 : sizeOf (k, c) = 1 + sizeOf k + sizeOf c := rfl
          omega
        have hszr : sizeOf rest < n := by
          have h1 := List.cons.sizeOf_spec (k, c) rest
          omega
        obtain ⟨t, u, hnode, hft, hrenorm⟩ :=
          (ih (sizeOf c) hszc).1 c (path ++ [k]) le_rfl hfree.1
        obtain ⟨hfrest, hrest2⟩ :=
          (ih (sizeOf rest) hszr).2.1 rest path le_rfl hfree.2
        have h1 : normProps ((k, c) :: rest) path
            = ((k, t) :: (normProps rest path).1,
               u ++ (normProps rest path).2) := by
          simp [normProps, hnode]
        rw [h1]
        constructor
        · simp only [unionFreeProps, Bool.and_eq_true]
          exact ⟨hft, hfrest⟩
        · rw [normProps_cons_snd, hrenorm, hrest2]
    -- PropsOptIdem
    · intro pr path hsz hfree
      cases pr with
      | none =>
        constructor
        · simp [normalizePropsOpt, unionFreeProps]
        · simp [normalizePropsOpt, normProps]
      | some pl =>
        have hszl : sizeOf pl < n := by
          have h : sizeOf (some pl) = 1 + sizeOf pl := rfl
          omega
        simp only [unionFreePropsOpt] at hfree
        have hres := (ih (sizeOf pl) hszl).2.1 pl path le_rfl hfree
        simpa [normalizePropsOpt] using hres
    -- AddPropsIdem
    · intro ap path hsz hfree
      match ap with
      | none =>
        constructor <;> simp [normalizeAddProps, unionFreeAddProps]
      | some (Sum.inl true) =>
        constructor <;> simp [normalizeAddProps, unionFreeAddProps]
      | some (Sum.inl false) =>
        constructor <;> simp [normalizeAddProps, unionFreeAddProps]
      | some (Sum.inr sub) =>
        simp only [unionFreeAddProps] at hfree
        have hszs : sizeOf sub < n := by
          have h : sizeOf sub < sizeOf (some ((Sum.inr sub : Bool ⊕ JSchema))) := by
            simp
            omega
          omega
        obtain ⟨t, u, hnode, hft, hrenorm⟩ :=
          (ih (sizeOf sub) hszs).1 sub (path ++ ["*"]) le_rfl hfree
        have h1 : normalizeAddProps (some (Sum.inr sub)) path
            = (some (Sum.inr t), if u = [] then [] else [pathLabel path]) := by
          simp [normalizeAddProps, hnode]
        rw [h1]
        constructor
        · simpa [unionFreeAddProps] using hft
        · have h2 : normalizeAddProps (some (Sum.inr t)) path
              = (some (Sum.inr ((normalizeSchemaNode t (path ++ ["*"])).schema.getD t)),
                 if u = [] then [] else [pathLabel path]) := by
            simp [normalizeAddProps, hrenorm]
          simp only []
          rw [h2]
    -- ItemsIdem
    · intro ii path hsz hfree
      match ii with
      | none =>
        constructor <;> simp [normalizeItems, unionFreeItems]
      | some (Sum.inr []) =>
        constructor <;> simp [normalizeItems, unionFreeItems, unionFreeList]
      | some (Sum.inl sub) =>
        simp only [unionFreeItems] at hfree
        have hszs : sizeOf sub < n := by
          have h : sizeOf sub < sizeOf (some ((Sum.inl sub : JSchema ⊕ List JSchema))) := by
            simp
            omega
          omega
        obtain ⟨t, u, hnode, hft, hrenorm⟩ :=
          (ih (sizeOf sub) hszs).1 sub (path ++ ["*"]) le_rfl hfree
        have h1 : normalizeItems (some (Sum.inl sub)) path
            = (some (Sum.inl t), if u = [] then [] else [pathLabel path]) := by
          simp [normalizeItems, hnode]
        rw [h1]
        constructor
        · simpa [unionFreeItems] using hft
        · have h2 : normalizeItems (some (Sum.inl t)) path
              = (some (Sum.inl ((normalizeSchemaNode t (path ++ ["*"])).schema.getD t)),
                 if u = [] then [] else [pathLabel path]) := by
            simp [normalizeItems, hrenorm]
          simp only []
          rw [h2]
      | some (Sum.inr (sub :: tail)) =>
        simp only [unionFreeItems, unionFreeList, Bool.and_eq_true] at hfree
        have hszs : sizeOf sub < n := by
          have h : sizeOf sub < sizeOf (some ((Sum.inr (sub :: tail) : JSchema ⊕ List JSchema))) := by
            simp
            omega
          omega
        obtain ⟨t, u, hnode, hft, hrenorm⟩ :=
          (ih (sizeOf sub) hszs).1 sub (path ++ ["*"]) le_rfl hfree.1
        have h1 : normalizeItems (some (Sum.inr (sub :: tail))) path
            = (some (Sum.inl t), if u = [] then [] else [pathLabel path]) := by
          simp [normalizeItems, hnode]
        rw [h1]
        constructor
        · simpa [unionFreeItems] using hft
        · have h2 : normalizeItems (some (Sum.inl t)) path
              = (some (Sum.inl ((normalizeSchemaNode t (path ++ ["*"])).schema.getD t)),
                 if u = [] then [] else [pathLabel path]) := by
            simp [normalizeItems, hrenorm]
          simp only []
          rw [h2]

/-- A small union-free schema: an object with one string property and one
unsupported ("frob"-typed) property. -/
def c6Schema : JSchema :=
  .mk (some (.inl "object"))
    (some [("a", .mk (some (.inl "string")) none none none none none
                   none none none none),
           ("b", frobSchema)])
    none none none none none none none none

/-- C6 amended: normalization is idempotent with respect to the
unsupported-path set for every union-free schema (no anyOf/oneOf/allOf
anywhere in the tree): re-running the normalizer on the normalized output
yields the same unsupported-path list. -/
theorem normalize_idempotent_unionFree (s : JSchema)
    (h : unionFree s = true) :
    (analyzeConfigSchema (analyzeConfigSchema (some s)).schema).unsupportedPaths
      = (analyzeConfigSchema (some s)).unsupportedPaths := by
  obtain ⟨t, u, hnode, hft, hrenorm⟩ := (idem_all (sizeOf s)).1 s [] le_rfl h
  simp [analyzeConfigSchema, hnode, hrenorm]

/-- Witness for the amended C6 theorem on a concrete union-free schema. -/
theorem normalize_idempotent_unionFree_witness :
    unionFree c6Schema = true
    ∧ (analyzeConfigSchema
        (analyzeConfigSchema (some c6Schema)).schema).unsupportedPaths
      = (analyzeConfigSchema (some c6Schema)).unsupportedPaths :=
  ⟨by simp [c6Schema, frobSchema, unionFree, unionFreePropsOpt, unionFreeProps,
      unionFreeItems, unionFreeAddProps],
   normalize_idempotent_unionFree c6Schema
    (by simp [c6Schema, frobSchema, unionFree, unionFreePropsOpt,
        unionFreeProps, unionFreeItems, unionFreeAddProps])⟩
